import Mathlib

/-!
# Verification of the batched translation pipeline (code-locale-craft)

Shallow embedding of the translation pipeline services:

* `ConsolidatedTranslationService` (src/src/services/consolidatedTranslationService.ts):
  adaptive batch sizing, batch partitioning, consolidated merge.
* `AITranslationService` (src/src/services/translationService.ts):
  code-string classifier, batch orchestrator, backend adapter, file assembler.
* `TranslationFixService` (src/src/services/translationFixService.ts): reconciler.
* `TranslationCacheService` (database service): persistent translation cache.

JavaScript strings are modelled as Lean `String`s (length = number of characters;
all strings considered sit in the BMP so UTF-16 code-unit counts agree).
JavaScript numbers that only ever hold small integers are modelled as `Nat`;
quality scores are modelled as `ℚ`.  Floating-point expressions such as
`entries.length * 0.3` and `defaultBatchSize * 0.6` are modelled in exact
rational arithmetic, which coincides with IEEE double evaluation on the
magnitudes reachable here.  Asynchronous effects (database, backend calls)
are modelled by explicit oracles passed as arguments, and `throw` by `Except`.
-/

namespace JsModel

/-- JavaScript `x || d` for an optional numeric option: `undefined` and `0`
are falsy and both select the default. -/
def jsOrNat (x : Option Nat) (d : Nat) : Nat :=
  match x with
  | none => d
  | some n => if n = 0 then d else n

/-- JavaScript `q || d` for an optional quality score (`undefined` and `0`
are falsy). -/
def jsOrRat (x : Option ℚ) (d : ℚ) : ℚ :=
  match x with
  | none => d
  | some q => if q = 0 then d else q

/-- Lookup in a JavaScript object modelled as an association list
(first binding wins; objects built by `objUpsert` have unique keys). -/
def alookup (l : List (String × α)) (k : String) : Option α :=
  (l.find? (fun e => e.1 = k)).map (·.2)

/-- JavaScript `obj[k] = v`: replace the binding in place if `k` is present,
otherwise append it (insertion order preserved). -/
def objUpsert (l : List (String × α)) (k : String) (v : α) : List (String × α) :=
  match l with
  | [] => [(k, v)]
  | e :: rest => if e.1 = k then (k, v) :: rest else e :: objUpsert rest k v

/-- JavaScript object spread `{...base, ...m}`: fold the right object's
bindings into the left with override semantics. -/
def objSpread (base m : List (String × α)) : List (String × α) :=
  m.foldl (fun acc e => objUpsert acc e.1 e.2) base

/-- `ceil(n / 4)` on natural numbers (`Math.ceil(x / 4)` for integral `x`). -/
def ceilDiv4 (n : Nat) : Nat := (n + 3) / 4

/-- Fuel-indexed worker for `chunkList` (structural recursion on the fuel
keeps the function kernel-reducible; `chunkList` supplies fuel `l.length`,
which is always sufficient since each step drops at least one element). -/
def chunkListAux (b : Nat) : Nat → List α → List (List α)
  | _, [] => []
  | 0, _ :: _ => []
  | fuel + 1, x :: xs =>
    if b = 0 then [] else
      ((x :: xs).take b) :: chunkListAux b fuel ((x :: xs).drop b)

/-- The JS loop `for (i = 0; i < l.length; i += b) out.push(l.slice(i, i+b))`:
split a list into consecutive chunks of size `b` (the last possibly shorter).
For `b = 0` the JS loop would not terminate; that case is unreachable in the
source (chunk sizes there are always positive) and is mapped to `[]`. -/
def chunkList (b : Nat) (l : List α) : List (List α) :=
  chunkListAux b l.length l

/-- The worker ignores the exact fuel as long as it is sufficient. -/
theorem chunkListAux_fuel (b : Nat) :
    ∀ (fuel fuel' : Nat) (l : List α), l.length ≤ fuel → l.length ≤ fuel' →
      chunkListAux b fuel l = chunkListAux b fuel' l := by
  intro fuel
  induction fuel with
  | zero =>
    intro fuel' l hl _
    have : l = [] := List.length_eq_zero.1 (Nat.le_zero.1 hl)
    subst this
    cases fuel' <;> simp [chunkListAux]
  | succ f ih =>
    intro fuel' l hl hl'
    match l with
    | [] => cases fuel' <;> simp [chunkListAux]
    | x :: xs =>
      match fuel' with
      | 0 => simp at hl'
      | f' + 1 =>
        simp only [chunkListAux]
        by_cases hb : b = 0
        · simp [hb]
        · simp only [hb, if_false]
          have hdrop : ((x :: xs).drop b).length ≤ f := by
            simp only [List.length_drop, List.length_cons]
            simp only [List.length_cons] at hl
            omega
          have hdrop' : ((x :: xs).drop b).length ≤ f' := by
            simp only [List.length_drop, List.length_cons]
            simp only [List.length_cons] at hl'
            omega
          rw [ih f' _ hdrop hdrop']

theorem chunkList_nil (b : Nat) : chunkList b ([] : List α) = [] := by
  simp [chunkList, chunkListAux]

theorem chunkList_cons (b : Nat) (hb : b ≠ 0) (x : α) (xs : List α) :
    chunkList b (x :: xs) = (x :: xs).take b :: chunkList b ((x :: xs).drop b) := by
  show chunkListAux b (x :: xs).length (x :: xs) = _
  simp only [List.length_cons, chunkListAux, hb, if_false]
  rw [chunkListAux_fuel b xs.length ((x :: xs).drop b).length ((x :: xs).drop b)]
  · rfl
  · simp only [List.length_drop, List.length_cons]
    omega
  · exact Nat.le_refl _

/-- Chunking never produces an empty chunk (for positive chunk size). -/
theorem chunkList_ne_nil (b : Nat) (hb : 0 < b) (l : List α) :
    ∀ c ∈ chunkList b l, c ≠ [] := by
  match l with
  | [] => simp [chunkList_nil]
  | x :: xs =>
    rw [chunkList_cons b (by omega) x xs]
    intro c hc
    rcases List.mem_cons.1 hc with h1 | h2
    · subst h1
      rcases b with _ | b
      · omega
      · simp [List.take]
    · exact chunkList_ne_nil b hb ((x :: xs).drop b) c h2
  termination_by l.length
  decreasing_by
    simp only [List.length_drop, List.length_cons]
    omega

/-- Flattening the chunks recovers the original list. -/
theorem chunkList_flatten (b : Nat) (hb : 0 < b) (l : List α) :
    (chunkList b l).flatten = l := by
  match l with
  | [] => simp [chunkList_nil]
  | x :: xs =>
    rw [chunkList_cons b (by omega) x xs]
    simp only [List.flatten_cons,
      chunkList_flatten b hb ((x :: xs).drop b), List.take_append_drop]
  termination_by l.length
  decreasing_by
    simp only [List.length_drop, List.length_cons]
    omega

end JsModel

namespace StrPat

/-! Decidable embeddings of the regular-expression tests used by the two
`isCodeString` classifiers.  Each definition is the exact language of the
corresponding JS regex on the character sequences reachable here (ASCII
inputs; `\s` and `trim` are modelled on the ASCII whitespace characters). -/

def isDigitCh (c : Char) : Bool := '0' ≤ c && c ≤ '9'

def isLowerCh (c : Char) : Bool := 'a' ≤ c && c ≤ 'z'

def isUpperCh (c : Char) : Bool := 'A' ≤ c && c ≤ 'Z'

def isLetterCh (c : Char) : Bool := isLowerCh c || isUpperCh c

/-- `\w` = `[A-Za-z0-9_]`. -/
def isWordCh (c : Char) : Bool := isLetterCh c || isDigitCh c || c = '_'

/-- `[\w-]`. -/
def isWordHyphenCh (c : Char) : Bool := isWordCh c || c = '-'

def isHexCh (c : Char) : Bool :=
  isDigitCh c || ('a' ≤ c && c ≤ 'f') || ('A' ≤ c && c ≤ 'F')

/-- `[a-zA-Z_$]`, the start of a JS identifier. -/
def isIdentStartCh (c : Char) : Bool := isLetterCh c || c = '_' || c = '$'

/-- `[a-zA-Z0-9_$]`. -/
def isIdentCh (c : Char) : Bool := isIdentStartCh c || isDigitCh c

/-- `[a-z-]` (case-sensitive). -/
def isLowerHyphenCh (c : Char) : Bool := isLowerCh c || c = '-'

/-- `[a-z-]` under the `i` flag. -/
def isLetterHyphenCh (c : Char) : Bool := isLetterCh c || c = '-'

/-- JS `\s` / `String.prototype.trim` whitespace (ASCII part). -/
def isSpaceCh (c : Char) : Bool :=
  c = ' ' || c = '\t' || c = '\n' || c = '\r' || c.val = 11 || c.val = 12

/-- A character the JS regex `.` does not match (line terminators). -/
def isLineTermCh (c : Char) : Bool :=
  c = '\n' || c = '\r' || c.val = 0x2028 || c.val = 0x2029

/-- ASCII lower-casing, for patterns carrying the `i` flag. -/
def asciiLower (c : Char) : Char :=
  if isUpperCh c then Char.ofNat (c.toNat + 32) else c

/-- `String.prototype.trim()`. -/
def trimChars (l : List Char) : List Char :=
  ((l.dropWhile isSpaceCh).reverse.dropWhile isSpaceCh).reverse

/-- Does `hay` start with `needle`? -/
def listStartsWith : List Char → List Char → Bool
  | [], _ => true
  | _ :: _, [] => false
  | n :: ns, h :: hs => n = h && listStartsWith ns hs

/-- The remainder of `hay` after an initial `needle`, when it starts with it. -/
def afterMatch : List Char → List Char → Option (List Char)
  | [], rest => some rest
  | _ :: _, [] => none
  | n :: ns, h :: hs => if n = h then afterMatch ns hs else none

/-- Does `hay` contain `needle` as a contiguous substring? -/
def containsSub (needle : List Char) : List Char → Bool
  | [] => listStartsWith needle []
  | h :: hs => listStartsWith needle (h :: hs) || containsSub needle hs

/-- Does one of `words` occur here, with a word boundary on each side?
`prevOk` records whether the previous character (if any) was a non-word
character. -/
def wordHere (words : List (List Char)) (prevOk : Bool) (hay : List Char) : Bool :=
  prevOk && words.any (fun w =>
    match afterMatch w hay with
    | some [] => true
    | some (c :: _) => !isWordCh c
    | none => false)

def containsWordAux (words : List (List Char)) : Bool → List Char → Bool
  | _, [] => false
  | prevOk, c :: cs =>
    wordHere words prevOk (c :: cs) || containsWordAux words (!isWordCh c) cs

/-- `\b(w₁|w₂|…)\b` as an unanchored containment test (all the words used
consist of word characters, so the boundary conditions are as in `wordHere`). -/
def containsWord (words : List (List Char)) (hay : List Char) : Bool :=
  containsWordAux words true hay

/-- `^[a-z-]+\d+$` with `i`: a non-empty letter/hyphen prefix followed by a
non-empty digit suffix. -/
def cssClassNumPat (t : List Char) : Bool :=
  let p := t.takeWhile isLetterHyphenCh
  let rest := t.drop p.length
  !p.isEmpty && !rest.isEmpty && rest.all isDigitCh

/-- `^[a-z]+-[a-z]+-\d+$` with `i`. -/
def cssTwoSegNumPat (t : List Char) : Bool :=
  let a := t.takeWhile isLetterCh
  match t.drop a.length with
  | '-' :: r2 =>
    let b := r2.takeWhile isLetterCh
    match r2.drop b.length with
    | '-' :: r4 => !a.isEmpty && !b.isEmpty && !r4.isEmpty && r4.all isDigitCh
    | _ => false
  | _ => false

/-- `^[A-Z_][A-Z0-9_]*$`. -/
def constantPat (t : List Char) : Bool :=
  match t with
  | [] => false
  | c :: cs => (isUpperCh c || c = '_') &&
      cs.all (fun d => isUpperCh d || isDigitCh d || d = '_')

/-- `^[a-z]+[A-Z][a-zA-Z]*$`. -/
def camelCasePat (t : List Char) : Bool :=
  let p := t.takeWhile isLowerCh
  match t.drop p.length with
  | c :: cs => !p.isEmpty && isUpperCh c && cs.all isLetterCh
  | [] => false

/-- Does `hay` end with `needle`? -/
def listEndsWith (needle hay : List Char) : Bool :=
  listStartsWith needle.reverse hay.reverse

/-- `\.(ext₁|ext₂|…)$` for a list of dot-prefixed suffixes. -/
def fileExtPat (exts : List (List Char)) (t : List Char) : Bool :=
  exts.any (fun e => listEndsWith e t)

/-- `^#[0-9a-fA-F]{3,6}$`. -/
def hexColorPat (t : List Char) : Bool :=
  match t with
  | '#' :: cs => decide (3 ≤ cs.length) && decide (cs.length ≤ 6) && cs.all isHexCh
  | _ => false

/-- `^\d+S$` for a fixed non-digit suffix `S`. -/
def numSuffixPat (suffix : List Char) (t : List Char) : Bool :=
  let d := t.takeWhile isDigitCh
  !d.isEmpty && t.drop d.length = suffix

/-- `^\w+\(\)$`. -/
def funcCallPat (t : List Char) : Bool :=
  let w := t.takeWhile isWordCh
  !w.isEmpty && t.drop w.length = ['(', ')']

/-- `^\w+\.\w+` (unanchored at the right). -/
def propAccessPat (t : List Char) : Bool :=
  let w := t.takeWhile isWordCh
  match t.drop w.length with
  | '.' :: c :: _ => !w.isEmpty && isWordCh c
  | _ => false

/-- `^kw\s` for a keyword `kw`: the keyword followed by one whitespace. -/
def kwSpacePat (kw : List Char) (t : List Char) : Bool :=
  match afterMatch kw t with
  | some (c :: _) => isSpaceCh c
  | _ => false

/-- `^[a-z-]+:[a-z-]+$`. -/
def cssPropColonPat (t : List Char) : Bool :=
  let a := t.takeWhile isLowerHyphenCh
  match t.drop a.length with
  | ':' :: r2 => !a.isEmpty && !r2.isEmpty && r2.all isLowerHyphenCh
  | _ => false

/-- `^\{.*\}$` / `^\[.*\]$`: first and last characters fixed, middle free of
line terminators (`.` does not cross them). -/
def wrappedPat (first lst : Char) (t : List Char) : Bool :=
  match t with
  | [] => false
  | c :: cs =>
    match cs.reverse with
    | [] => false
    | d :: mid => c = first && d = lst && mid.all (fun m => !isLineTermCh m)

end StrPat

namespace ConsolidatedTranslationService

open JsModel

/-- `batch.type` tag (`'long-keys' | 'normal'`). -/
inductive BatchType where
  | longKeys
  | normal
  deriving DecidableEq, Repr

/-- One batch built by `generateWithBatching`: `{ json: batchJson, type }`.
`Object.fromEntries` over entries with pairwise-distinct keys is the
association list itself. -/
structure Batch where
  json : List (String × String)
  type : BatchType
  deriving DecidableEq, Repr

/-- `ConsolidatedTranslationService.calculateAdaptiveBatchSize`
(consolidatedTranslationService.ts lines 85-114).

Accumulates `totalTokens += ceil(key.length/4) + ceil(value.length/4)` and
`longKeyCount += 1` when `key.length > 50` over all entries, then reduces the
batch size to `max(25, floor(defaultBatchSize * 0.6))` when
`longKeyCount > entries.length * 0.3` or
`totalTokens / entries.length > 50` (rational comparisons model the JS float
comparisons; for an empty input the JS average is `NaN` and `NaN > 50` is
false, matching `0 / 0 = 0 > 50` here). -/
def calculateAdaptiveBatchSize (englishJson : List (String × String))
    (defaultBatchSize : Nat) : Nat :=
  let acc := englishJson.foldl
    (fun (acc : Nat × Nat) e =>
      (acc.1 + (ceilDiv4 e.1.length + ceilDiv4 e.2.length),
       if e.1.length > 50 then acc.2 + 1 else acc.2))
    (0, 0)
  let totalTokens := acc.1
  let longKeyCount := acc.2
  if (longKeyCount : ℚ) > (englishJson.length : ℚ) * (3 / 10) ∨
      (totalTokens : ℚ) / (englishJson.length : ℚ) > 50 then
    max 25 (defaultBatchSize * 6 / 10)
  else
    defaultBatchSize

/-- The adaptive-batch-size computation as the claim's sentence states it:
per-entry token estimate `ceil((len(key) + len(text)) / 4)`, otherwise
identical to `calculateAdaptiveBatchSize`.  Stated only to be compared with
the definition read off the source. -/
def calculateAdaptiveBatchSizeClaimTokens (englishJson : List (String × String))
    (defaultBatchSize : Nat) : Nat :=
  let acc := englishJson.foldl
    (fun (acc : Nat × Nat) e =>
      (acc.1 + ceilDiv4 (e.1.length + e.2.length),
       if e.1.length > 50 then acc.2 + 1 else acc.2))
    (0, 0)
  let totalTokens := acc.1
  let longKeyCount := acc.2
  if (longKeyCount : ℚ) > (englishJson.length : ℚ) * (3 / 10) ∨
      (totalTokens : ℚ) / (englishJson.length : ℚ) > 50 then
    max 25 (defaultBatchSize * 6 / 10)
  else
    defaultBatchSize

/-- The batch construction of `ConsolidatedTranslationService.generateWithBatching`
(consolidatedTranslationService.ts lines 121-145): split the entries into
long-key entries (`key.length > 50`) and normal entries, chunk the long-key
entries with chunk size `max(15, floor(batchSize * 0.3))`, chunk the normal
entries with `batchSize`, long-key batches first. -/
def generateBatches (entries : List (String × String)) (batchSize : Nat) :
    List Batch :=
  let longKeyEntries := entries.filter (fun e => e.1.length > 50)
  let normalEntries := entries.filter (fun e => e.1.length ≤ 50)
  let longKeyBatchSize := max 15 (batchSize * 3 / 10)
  (chunkList longKeyBatchSize longKeyEntries).map (fun l => ⟨l, BatchType.longKeys⟩)
    ++ (chunkList batchSize normalEntries).map (fun l => ⟨l, BatchType.normal⟩)

/-- The token estimate of one entry as the source computes it:
`ceil(key.length / 4) + ceil(value.length / 4)`. -/
def entryTokens (e : String × String) : Nat :=
  ceilDiv4 e.1.length + ceilDiv4 e.2.length

/-- The number of entries whose key length exceeds 50 characters. -/
def longKeyCount (j : List (String × String)) : Nat :=
  (j.filter (fun e => e.1.length > 50)).length

/-- Specification of the accumulator loop of `calculateAdaptiveBatchSize`
(and its claim-variant), for an arbitrary per-entry token function. -/
theorem adaptFold_spec (tok : String × String → Nat) (j : List (String × String)) :
    ∀ a c : Nat,
      j.foldl
        (fun (acc : Nat × Nat) e =>
          (acc.1 + tok e, if e.1.length > 50 then acc.2 + 1 else acc.2))
        (a, c)
      = (a + (j.map tok).sum, c + longKeyCount j) := by
  induction j with
  | nil => intro a c; simp [longKeyCount]
  | cons e es ih =>
    intro a c
    simp only [List.foldl_cons, ih]
    by_cases h : e.1.length > 50 <;>
      simp [longKeyCount, h, List.filter_cons] <;> omega

/-- The reduction condition of `calculateAdaptiveBatchSize`, stated over the
rationals as in the source, is equivalent to a natural-number condition. -/
theorem adaptCond_iff (n c t : Nat) (hnt : n = 0 → t = 0) :
    ((c : ℚ) > (n : ℚ) * (3 / 10) ∨ (t : ℚ) / (n : ℚ) > 50) ↔
      (10 * c > 3 * n ∨ t > 50 * n) := by
  have h1 : ((n : ℚ) * (3 / 10) < (c : ℚ)) ↔ (3 * n < 10 * c) := by
    rw [show ((n : ℚ) * (3 / 10)) = (3 * n : ℚ) / 10 by ring,
      div_lt_iff₀ (by norm_num : (0 : ℚ) < 10), mul_comm (c : ℚ) 10]
    exact_mod_cast Iff.rfl
  rcases Nat.eq_zero_or_pos n with hn | hn
  · subst hn
    have ht := hnt rfl
    subst ht
    simp
  · have h2 : ((50 : ℚ) < (t : ℚ) / (n : ℚ)) ↔ (50 * n < t) := by
      rw [lt_div_iff₀ (by exact_mod_cast hn : (0 : ℚ) < (n : ℚ)),
        mul_comm (50 : ℚ) (n : ℚ), mul_comm (n : ℚ) 50]
      exact_mod_cast Iff.rfl
    constructor
    · rintro (h | h)
      · exact Or.inl (h1.1 h)
      · exact Or.inr (h2.1 h)
    · rintro (h | h)
      · exact Or.inl (h1.2 h)
      · exact Or.inr (h2.2 h)

/-- Natural-number characterisation of `calculateAdaptiveBatchSize`. -/
theorem calculateAdaptiveBatchSize_eq (j : List (String × String)) (b : Nat) :
    calculateAdaptiveBatchSize j b =
      if 10 * longKeyCount j > 3 * j.length ∨ (j.map entryTokens).sum > 50 * j.length
      then max 25 (b * 6 / 10) else b := by
  unfold calculateAdaptiveBatchSize
  rw [adaptFold_spec (fun e => ceilDiv4 e.1.length + ceilDiv4 e.2.length) j 0 0]
  simp only [Nat.zero_add]
  rw [if_congr (adaptCond_iff j.length (longKeyCount j)
      ((j.map (fun e => ceilDiv4 e.1.length + ceilDiv4 e.2.length)).sum)
      (fun h => by simp [List.length_eq_zero.1 h])) rfl rfl]
  have he : j.map entryTokens = j.map (fun e => ceilDiv4 e.1.length + ceilDiv4 e.2.length) := by
    simp [entryTokens]
  rw [he]

/-- Natural-number characterisation of the claim-variant. -/
theorem calculateAdaptiveBatchSizeClaimTokens_eq (j : List (String × String)) (b : Nat) :
    calculateAdaptiveBatchSizeClaimTokens j b =
      if 10 * longKeyCount j > 3 * j.length ∨
          (j.map (fun e => ceilDiv4 (e.1.length + e.2.length))).sum > 50 * j.length
      then max 25 (b * 6 / 10) else b := by
  unfold calculateAdaptiveBatchSizeClaimTokens
  rw [adaptFold_spec (fun e => ceilDiv4 (e.1.length + e.2.length)) j 0 0]
  simp only [Nat.zero_add]
  rw [if_congr (adaptCond_iff j.length (longKeyCount j)
      ((j.map (fun e => ceilDiv4 (e.1.length + e.2.length))).sum)
      (fun h => by simp [List.length_eq_zero.1 h])) rfl rfl]

/-- In a family of lists whose flattened key image has no duplicates, a key
occurring somewhere occurs in exactly one member list. -/
theorem countP_flatten_eq_one {α β : Type} [DecidableEq β] (f : α → β)
    (css : List (List α)) (hnd : (css.flatten.map f).Nodup) (k : β)
    (hk : k ∈ css.flatten.map f) :
    css.countP (fun cs => decide (k ∈ cs.map f)) = 1 := by
  induction css with
  | nil => simp at hk
  | cons cs css ih =>
    simp only [List.flatten_cons, List.map_append, List.nodup_append] at hnd
    obtain ⟨h1, h2, hdisj⟩ := hnd
    simp only [List.flatten_cons, List.map_append, List.mem_append] at hk
    rw [List.countP_cons]
    by_cases hmem : k ∈ cs.map f
    · have htail : css.countP (fun cs' => decide (k ∈ cs'.map f)) = 0 := by
        rw [List.countP_eq_zero]
        intro cs' hcs'
        simp only [decide_eq_true_eq]
        intro hk'
        rcases List.mem_map.1 hk' with ⟨a, ha, rfl⟩
        exact hdisj hmem
          (List.mem_map.2 ⟨a, List.mem_flatten.2 ⟨cs', hcs', ha⟩, rfl⟩)
      rw [htail]
      simp [hmem]
    · have hk2 : k ∈ css.flatten.map f := hk.resolve_left hmem
      rw [ih h2 hk2]
      simp [hmem]

/-- C1 (partition completeness): for every entry list with pairwise-distinct
keys (`Object.entries` of the input mapping) and every positive batch size,
the batches constructed by `generateWithBatching` are all non-empty, their
entry counts sum to the input entry count, and every input key occurs in
exactly one batch. -/
theorem generateBatches_partition_complete
    (entries : List (String × String)) (b : Nat) (hb : 0 < b)
    (hnd : (entries.map Prod.fst).Nodup) :
    (∀ batch ∈ generateBatches entries b, batch.json ≠ []) ∧
    ((generateBatches entries b).map (fun batch => batch.json.length)).sum
        = entries.length ∧
    ∀ k ∈ entries.map Prod.fst,
      (generateBatches entries b).countP
        (fun batch => decide (k ∈ batch.json.map Prod.fst)) = 1 := by
  have hlb : (0 : Nat) < max 15 (b * 3 / 10) :=
    lt_of_lt_of_le (by norm_num) (le_max_left _ _)
  have hjs : (generateBatches entries b).map Batch.json
      = chunkList (max 15 (b * 3 / 10)) (entries.filter (fun e => e.1.length > 50))
        ++ chunkList b (entries.filter (fun e => e.1.length ≤ 50)) := by
    simp [generateBatches, List.map_map, Function.comp_def]
  have hflat : ((generateBatches entries b).map Batch.json).flatten
      = entries.filter (fun e => e.1.length > 50)
        ++ entries.filter (fun e => e.1.length ≤ 50) := by
    rw [hjs, List.flatten_append,
      chunkList_flatten _ hlb _, chunkList_flatten _ hb _]
  have hNeq : entries.filter (fun e => e.1.length ≤ 50)
      = entries.filter (fun e => !(decide (e.1.length > 50))) := by
    apply List.filter_congr
    intro a _
    by_cases h : 50 < a.1.length
    · simp [h, Nat.not_le.2 h]
    · simp [h, Nat.not_lt.1 h]
  have hperm : (entries.filter (fun e => e.1.length > 50)
      ++ entries.filter (fun e => e.1.length ≤ 50)).Perm entries := by
    rw [hNeq]
    exact List.filter_append_perm _ entries
  refine ⟨?_, ?_, ?_⟩
  · intro batch hbatch
    rcases List.mem_append.1 hbatch with h | h
    · rcases List.mem_map.1 h with ⟨c, hc, rfl⟩
      exact chunkList_ne_nil _ hlb _ c hc
    · rcases List.mem_map.1 h with ⟨c, hc, rfl⟩
      exact chunkList_ne_nil _ hb _ c hc
  · have : (generateBatches entries b).map (fun batch => batch.json.length)
        = ((generateBatches entries b).map Batch.json).map List.length := by
      simp [List.map_map, Function.comp_def]
    rw [this, ← List.length_flatten, hflat, hperm.length_eq]
  · intro k hk
    have hcount : (generateBatches entries b).countP
        (fun batch => decide (k ∈ batch.json.map Prod.fst))
        = ((generateBatches entries b).map Batch.json).countP
            (fun cs => decide (k ∈ cs.map Prod.fst)) := by
      rw [List.countP_map]
      rfl
    rw [hcount]
    apply countP_flatten_eq_one
    · rw [hflat]
      exact ((hperm.map Prod.fst).nodup_iff).2 hnd
    · rw [hflat]
      exact ((hperm.map Prod.fst).mem_iff).2 hk

/-- Witness for C1: the guarantees evaluated on a concrete two-entry input
with batch size 1. -/
theorem generateBatches_partition_complete_witness :
    ((0 : Nat) < 1 ∧ ((["alpha", "beta"] : List String)).Nodup) ∧
    ((generateBatches [("alpha", "1"), ("beta", "2")] 1).map
        (fun batch => batch.json.length)).sum = 2 :=
  ⟨⟨by decide, by decide⟩,
    (generateBatches_partition_complete [("alpha", "1"), ("beta", "2")] 1
      (by decide) (by decide)).2.1⟩

/-- C2 counterexample: with a single 51-character key (100% long keys, so the
reduction triggers) and `baseBatchSize = 10`, the computed batch size is
`max(25, floor(10 * 0.6)) = 25`, which is **not** at most
`floor(10 * 0.6) = 6`, refuting the claimed upper bound for arbitrary
`baseBatchSize`. -/
theorem calculateAdaptiveBatchSize_claim_counterexample :
    10 * longKeyCount [(String.mk (List.replicate 51 'k'), "v")]
        > 3 * ([(String.mk (List.replicate 51 'k'), "v")] : List (String × String)).length ∧
    calculateAdaptiveBatchSize [(String.mk (List.replicate 51 'k'), "v")] 10 = 25 ∧
    ¬ calculateAdaptiveBatchSize [(String.mk (List.replicate 51 'k'), "v")] 10 ≤ 10 * 6 / 10 := by
  refine ⟨by decide, ?_, ?_⟩ <;> rw [calculateAdaptiveBatchSize_eq] <;> decide

/-- C2 (amended): when strictly more than 30% of the keys exceed 50
characters, the computed batch size is exactly `max(25, floor(baseBatchSize *
0.6))`; hence it is always at least 25, and at most
`floor(baseBatchSize * 0.6)` whenever that floor is itself at least 25. -/
theorem calculateAdaptiveBatchSize_reduced_bound
    (j : List (String × String)) (b : Nat)
    (h : 10 * longKeyCount j > 3 * j.length) :
    calculateAdaptiveBatchSize j b = max 25 (b * 6 / 10) ∧
    25 ≤ calculateAdaptiveBatchSize j b ∧
    (25 ≤ b * 6 / 10 → calculateAdaptiveBatchSize j b ≤ b * 6 / 10) := by
  rw [calculateAdaptiveBatchSize_eq]
  simp only [if_pos (Or.inl h)]
  refine ⟨trivial, Nat.le_max_left _ _, fun h25 => Nat.max_le.2 ⟨h25, Nat.le_refl _⟩⟩

/-- Witness for C2 (amended): one 51-character key out of one, base 75. -/
theorem calculateAdaptiveBatchSize_reduced_bound_witness :
    calculateAdaptiveBatchSize [(String.mk (List.replicate 51 'k'), "v")] 75
        = max 25 (75 * 6 / 10) ∧
    25 ≤ calculateAdaptiveBatchSize [(String.mk (List.replicate 51 'k'), "v")] 75 ∧
    (25 ≤ 75 * 6 / 10 →
      calculateAdaptiveBatchSize [(String.mk (List.replicate 51 'k'), "v")] 75
        ≤ 75 * 6 / 10) :=
  calculateAdaptiveBatchSize_reduced_bound
    [(String.mk (List.replicate 51 'k'), "v")] 75 (by decide)

set_option maxRecDepth 4000 in
/-- C3 counterexample: on the single entry with a 50-character key and a
149-character value, the source computes `ceil(50/4) + ceil(149/4) = 51`
tokens (average 51 > 50, batch size reduced to 45), whereas the claimed
formula `ceil((50+149)/4) = 50` would not trigger the reduction (batch size
stays 75): the claimed per-entry estimate disagrees with the code's. -/
theorem tokenEstimate_formula_counterexample :
    calculateAdaptiveBatchSize
        [(String.mk (List.replicate 50 'k'), String.mk (List.replicate 149 'v'))] 75 = 45 ∧
    calculateAdaptiveBatchSizeClaimTokens
        [(String.mk (List.replicate 50 'k'), String.mk (List.replicate 149 'v'))] 75 = 75 ∧
    entryTokens (String.mk (List.replicate 50 'k'), String.mk (List.replicate 149 'v')) ≠
      ceilDiv4 ((String.mk (List.replicate 50 'k')).length
        + (String.mk (List.replicate 149 'v')).length) := by
  refine ⟨?_, ?_, by decide⟩
  · rw [calculateAdaptiveBatchSize_eq]
    decide
  · rw [calculateAdaptiveBatchSizeClaimTokens_eq]
    decide

/-- C3 (amended): the adaptive-batch-size computation estimates each entry's
token cost as `ceil(len(key)/4) + ceil(len(text)/4)` (not
`ceil((len(key)+len(text))/4)`), and reduces the batch size exactly when the
average of these estimates exceeds 50 (equivalently, their sum exceeds
`50 * N`) or more than 30% of keys are longer than 50 characters. -/
theorem calculateAdaptiveBatchSize_token_formula
    (j : List (String × String)) (b : Nat) :
    calculateAdaptiveBatchSize j b =
      if 10 * longKeyCount j > 3 * j.length ∨
          (j.map (fun e => ceilDiv4 e.1.length + ceilDiv4 e.2.length)).sum
            > 50 * j.length
      then max 25 (b * 6 / 10) else b := by
  rw [calculateAdaptiveBatchSize_eq]
  have he : j.map entryTokens
      = j.map (fun e => ceilDiv4 e.1.length + ceilDiv4 e.2.length) := by
    simp [entryTokens]
  rw [he]

end ConsolidatedTranslationService

namespace AITranslationService

open StrPat

/-- `AITranslationService.isCodeString` (translationService.ts lines 24-42).
An empty string is falsy, so `!text` returns `true`; otherwise the trimmed
text is tested against the nine code patterns. -/
def isCodeString (text : String) : Bool :=
  if text = "" then true
  else
    let t := trimChars text.data
    let low := t.map asciiLower
    -- /^[a-z-]+\d+$/i  (CSS classes like 'text-gray-600')
    cssClassNumPat t ||
    -- /^[a-z]+-[a-z]+-\d+$/i
    cssTwoSegNumPat t ||
    -- /\b(className|class|style|id)\b/i
    containsWord [String.data "classname", String.data "class",
      String.data "style", String.data "id"] low ||
    -- /^[A-Z_][A-Z0-9_]*$/
    constantPat t ||
    -- /^[a-z]+[A-Z][a-zA-Z]*$/
    camelCasePat t ||
    -- /\.(css|js|jsx|ts|tsx|html|json)$/i
    fileExtPat [String.data ".css", String.data ".js", String.data ".jsx",
      String.data ".ts", String.data ".tsx", String.data ".html",
      String.data ".json"] low ||
    -- /^#[0-9a-fA-F]{3,6}$/
    hexColorPat t ||
    -- /^rgb\(|rgba\(|hsl\(|hsla\(/i  (only the first alternative is anchored)
    (listStartsWith (String.data "rgb(") low ||
      containsSub (String.data "rgba(") low ||
      containsSub (String.data "hsl(") low ||
      containsSub (String.data "hsla(") low) ||
    -- /^\d+px$|^\d+%$|^\d+em$|^\d+rem$/i
    (numSuffixPat (String.data "px") low || numSuffixPat (String.data "%") low ||
      numSuffixPat (String.data "em") low || numSuffixPat (String.data "rem") low)

end AITranslationService

namespace ConsolidatedTranslationService

open StrPat

/-- `ConsolidatedTranslationService.isCodeString`
(consolidatedTranslationService.ts lines 334-361).  An empty string is falsy,
so `!text` returns `false`; otherwise the trimmed text is tested against the
twenty case-sensitive code patterns. -/
def isCodeString (text : String) : Bool :=
  if text = "" then false
  else
    let t := trimChars text.data
    -- /^[a-zA-Z_$][a-zA-Z0-9_$]*$/  (variable names)
    (match t with
      | [] => false
      | c :: cs => isIdentStartCh c && cs.all isIdentCh) ||
    -- /^[A-Z_][A-Z0-9_]*$/
    constantPat t ||
    -- /\.(js|ts|jsx|tsx|css|scss|html|json)$/
    fileExtPat [String.data ".js", String.data ".ts", String.data ".jsx",
      String.data ".tsx", String.data ".css", String.data ".scss",
      String.data ".html", String.data ".json"] t ||
    -- /^#[0-9a-fA-F]{3,6}$/
    hexColorPat t ||
    -- /^\d+px$|^\d+rem$|^\d+em$|^\d+%$/
    (numSuffixPat (String.data "px") t || numSuffixPat (String.data "rem") t ||
      numSuffixPat (String.data "em") t || numSuffixPat (String.data "%") t) ||
    -- /^rgb\(|^rgba\(|^hsl\(|^hsla\(/
    (listStartsWith (String.data "rgb(") t ||
      listStartsWith (String.data "rgba(") t ||
      listStartsWith (String.data "hsl(") t ||
      listStartsWith (String.data "hsla(") t) ||
    -- /^[a-z-]+:[a-z-]+$/  (CSS properties)
    cssPropColonPat t ||
    -- /^\.[\w-]+$|^#[\w-]+$/  (CSS selectors)
    (match t with
      | '.' :: cs => !cs.isEmpty && cs.all isWordHyphenCh
      | '#' :: cs => !cs.isEmpty && cs.all isWordHyphenCh
      | _ => false) ||
    -- /^@[\w-]+/  (CSS at-rules)
    (match t with
      | '@' :: c :: _ => isWordHyphenCh c
      | _ => false) ||
    -- /^\$[\w-]+/  (SCSS variables)
    (match t with
      | '$' :: c :: _ => isWordHyphenCh c
      | _ => false) ||
    -- /^--[\w-]+/  (CSS custom properties)
    (match t with
      | '-' :: '-' :: c :: _ => isWordHyphenCh c
      | _ => false) ||
    -- /^\{.*\}$/  (JSON-like objects)
    wrappedPat '{' '}' t ||
    -- /^\[.*\]$/  (arrays)
    wrappedPat '[' ']' t ||
    -- /^<\w+/  (HTML tags)
    (match t with
      | '<' :: c :: _ => isWordCh c
      | _ => false) ||
    -- /^\/\w+/  (paths)
    (match t with
      | '/' :: c :: _ => isWordCh c
      | _ => false) ||
    -- /^https?:\/\//  (URLs)
    (listStartsWith (String.data "http://") t ||
      listStartsWith (String.data "https://") t) ||
    -- /^\w+\(\)$/  (function calls)
    funcCallPat t ||
    -- /^\w+\.\w+/  (property access)
    propAccessPat t ||
    -- /^import\s|^export\s|^function\s|^class\s|^const\s|^let\s|^var\s/
    ([String.data "import", String.data "export", String.data "function",
      String.data "class", String.data "const", String.data "let",
      String.data "var"].any (fun kw => kwSpacePat kw t))

end ConsolidatedTranslationService

/-- C4 counterexample: `"btn-primary"` matches none of the code patterns of
either classifier (it has no trailing digits, no dot, no colon, and no
keyword), so both return `false` where the claim asserts `true`; moreover the
consolidated classifier's identifier pattern `^[a-zA-Z_$][a-zA-Z0-9_$]*$`
makes `"Submit"` return `true` where the claim asserts `false`. -/
theorem isCodeString_examples_counterexample :
    AITranslationService.isCodeString "btn-primary" = false ∧
    ConsolidatedTranslationService.isCodeString "btn-primary" = false ∧
    ConsolidatedTranslationService.isCodeString "Submit" = true := by
  decide

/-- C4 (amended): both classifiers are deterministic pure functions, and on
the claim's example inputs they return:
`AITranslationService.isCodeString`: `"btn-primary"` ↦ false, `"Submit"` ↦
false, `"#FF0000"` ↦ true, `"Please enter your email"` ↦ false,
`"className"` ↦ true; `ConsolidatedTranslationService.isCodeString`:
`"btn-primary"` ↦ false, `"Submit"` ↦ true, `"#FF0000"` ↦ true,
`"Please enter your email"` ↦ false, `"className"` ↦ true. -/
theorem isCodeString_deterministic_examples :
    (∀ x : String,
      AITranslationService.isCodeString x = AITranslationService.isCodeString x) ∧
    (∀ x : String,
      ConsolidatedTranslationService.isCodeString x
        = ConsolidatedTranslationService.isCodeString x) ∧
    AITranslationService.isCodeString "btn-primary" = false ∧
    AITranslationService.isCodeString "Submit" = false ∧
    AITranslationService.isCodeString "#FF0000" = true ∧
    AITranslationService.isCodeString "Please enter your email" = false ∧
    AITranslationService.isCodeString "className" = true ∧
    ConsolidatedTranslationService.isCodeString "btn-primary" = false ∧
    ConsolidatedTranslationService.isCodeString "Submit" = true ∧
    ConsolidatedTranslationService.isCodeString "#FF0000" = true ∧
    ConsolidatedTranslationService.isCodeString "Please enter your email" = false ∧
    ConsolidatedTranslationService.isCodeString "className" = true := by
  exact ⟨fun _ => rfl, fun _ => rfl, by decide, by decide, by decide, by decide,
    by decide, by decide, by decide, by decide, by decide, by decide⟩

namespace JsModel

/-- JavaScript `s || d` for an optional string (`undefined` and `""` are
falsy). -/
def jsOrStr (x : Option String) (d : String) : String :=
  match x with
  | none => d
  | some s => if s = "" then d else s

end JsModel

namespace AITranslationService

open JsModel

/-- `status` values of translation results and database rows. -/
inductive Status where
  | pending
  | completed
  | failed
  | retry
  deriving DecidableEq, Repr

/-- `TranslationResult` (translationService.ts lines 10-17), the
`originalText`/`languageCode`-free items returned by the backend adapter
included via `error? : Option String`. -/
structure TranslationResult where
  originalText : String
  translatedText : String
  languageCode : String
  qualityScore : ℚ
  status : Status
  error : Option String := none
  deriving DecidableEq, Repr

/-- One element of the adapter's return value
(`Omit<TranslationResult, 'originalText' | 'languageCode'>`). -/
structure BatchItem where
  translatedText : String
  qualityScore : ℚ
  status : Status
  error : Option String := none
  deriving DecidableEq, Repr

/-- A raw result object of the `translate` edge function's response;
`qualityScore` is optional (`result.qualityScore || 0.9`). -/
structure RawResult where
  translatedText : String
  qualityScore : Option ℚ
  deriving DecidableEq, Repr

/-- Successful response `data` of one attempt: either an array (batch
translation) or a single object. -/
inductive BackendData where
  | arrayData (results : List RawResult)
  | singleData (r : RawResult)
  deriving DecidableEq, Repr

/-- The body of one attempt of `translateBatchWithOpenAI`: a successful
attempt maps the response to `completed` items; a failed attempt (API error,
`data.error`, missing data, or the 60s timeout — all surfacing as a thrown
`Error`) records the message and retries.  After the last attempt, one
`failed` item per input text is returned carrying the last error's message
(`lastError?.message || 'Batch translation failed'`). -/
def adapterLoop (texts : List String)
    (attemptResult : Nat → Except String BackendData) :
    Nat → Nat → Option String → List BatchItem
  | _, 0, lastError =>
    texts.map (fun _ =>
      { translatedText := ""
        qualityScore := 0
        status := Status.failed
        error := some (jsOrStr lastError "Batch translation failed") })
  | attempt, rem + 1, _lastError =>
    match attemptResult attempt with
    | Except.ok (BackendData.arrayData rs) =>
      rs.map (fun r =>
        { translatedText := r.translatedText
          qualityScore := jsOrRat r.qualityScore (9 / 10)
          status := Status.completed })
    | Except.ok (BackendData.singleData r) =>
      [{ translatedText := r.translatedText
         qualityScore := jsOrRat r.qualityScore (9 / 10)
         status := Status.completed }]
    | Except.error e => adapterLoop texts attemptResult (attempt + 1) rem (some e)

/-- `AITranslationService.translateBatchWithOpenAI`
(translationService.ts lines 232-305): up to `maxRetries` attempts, the
outcome of attempt `i` given by the oracle `attemptResult i` (1-indexed).
The function never throws: its value is always a plain result list. -/
def translateBatchWithOpenAI (texts : List String) (maxRetries : Nat)
    (attemptResult : Nat → Except String BackendData) : List BatchItem :=
  adapterLoop texts attemptResult 1 maxRetries none

/-- If every attempt in the window `[attempt, attempt + rem)` fails, and the
last available error is `e` (the final attempt's when `rem > 0`, the carried
one otherwise), the loop returns one failed item per text carrying `e`. -/
theorem adapterLoop_all_failed (texts : List String)
    (attemptResult : Nat → Except String BackendData) :
    ∀ (rem attempt : Nat) (lastError : Option String) (e : String),
      (∀ i, attempt ≤ i → i < attempt + rem → ∃ e', attemptResult i = Except.error e') →
      (rem = 0 → lastError = some e) →
      (0 < rem → attemptResult (attempt + rem - 1) = Except.error e) →
      adapterLoop texts attemptResult attempt rem lastError =
        texts.map (fun _ =>
          { translatedText := ""
            qualityScore := 0
            status := Status.failed
            error := some (jsOrStr (some e) "Batch translation failed") }) := by
  intro rem
  induction rem with
  | zero =>
    intro attempt lastError e _ h0 _
    rw [h0 rfl]
    rfl
  | succ r ih =>
    intro attempt lastError e hall h0 hlast
    obtain ⟨e1, he1⟩ := hall attempt (Nat.le_refl _) (by omega)
    show adapterLoop texts attemptResult attempt (r + 1) lastError = _
    rw [adapterLoop]
    rw [he1]
    rcases Nat.eq_zero_or_pos r with hr | hr
    · subst hr
      have : attempt + 1 - 1 = attempt := by omega
      rw [this] at hlast
      have : e1 = e := by
        have h2 := hlast (by omega)
        rw [he1] at h2
        injection h2
      subst this
      exact ih (attempt + 1) (some e1) e1
        (fun i h1 h2 => absurd (Nat.lt_of_lt_of_le h2 (by omega)) (Nat.not_lt.2 h1))
        (fun _ => rfl) (fun h => absurd h (by omega))
    · exact ih (attempt + 1) (some e1) e
        (fun i h1 h2 => hall i (by omega) (by omega))
        (fun h => absurd h (by omega))
        (fun _ => by
          have : attempt + 1 + r - 1 = attempt + (r + 1) - 1 := by omega
          rw [this]
          exact hlast (by omega))

/-- C5 (adapter exhaustion): if every one of the `maxRetries ≥ 1` attempts
fails, `translateBatchWithOpenAI` returns (rather than throws) exactly one
result per input text, each with status `failed`, quality score 0, and the
last attempt's (non-empty) error message attached. -/
theorem translateBatchWithOpenAI_exhaustion (texts : List String)
    (maxRetries : Nat) (attemptResult : Nat → Except String BackendData)
    (e : String)
    (hpos : 1 ≤ maxRetries) (hne : e ≠ "")
    (hall : ∀ i, 1 ≤ i → i ≤ maxRetries → ∃ e', attemptResult i = Except.error e')
    (hlast : attemptResult maxRetries = Except.error e) :
    (translateBatchWithOpenAI texts maxRetries attemptResult).length = texts.length ∧
    ∀ r ∈ translateBatchWithOpenAI texts maxRetries attemptResult,
      r.status = Status.failed ∧ r.qualityScore = 0 ∧ r.error = some e := by
  have heq := adapterLoop_all_failed texts attemptResult maxRetries 1 none e
    (fun i h1 h2 => hall i h1 (by omega))
    (fun h => absurd h (by omega))
    (fun _ => by
      have : 1 + maxRetries - 1 = maxRetries := by omega
      rw [this]
      exact hlast)
  unfold translateBatchWithOpenAI
  rw [heq]
  constructor
  · exact List.length_map _ _
  · intro r hr
    rcases List.mem_map.1 hr with ⟨t, _, rfl⟩
    refine ⟨rfl, rfl, ?_⟩
    simp [jsOrStr, hne]

/-- Witness for C5: two texts, three attempts all failing with "boom". -/
theorem translateBatchWithOpenAI_exhaustion_witness :
    (translateBatchWithOpenAI ["Save", "Cancel"] 3
        (fun _ => Except.error "boom")).length = 2 ∧
    ∀ r ∈ translateBatchWithOpenAI ["Save", "Cancel"] 3
        (fun _ => Except.error "boom"),
      r.status = Status.failed ∧ r.qualityScore = 0 ∧ r.error = some "boom" :=
  translateBatchWithOpenAI_exhaustion ["Save", "Cancel"] 3
    (fun _ => Except.error "boom") "boom" (by decide) (by decide)
    (fun i _ _ => ⟨"boom", rfl⟩) rfl

end AITranslationService

namespace AITranslationService

open JsModel

/-- A row of the `translation_cache` table as read by
`TranslationCacheService.getCachedTranslation` (`quality_score` is nullable:
`cached.quality_score || 0.9`). -/
structure CacheRow where
  translated_text : String
  quality_score : Option ℚ
  deriving DecidableEq, Repr

/-- The argument record of `TranslationService.saveTranslation`. -/
structure SaveRec where
  analysisId : String
  translationKey : String
  originalText : String
  translatedText : String
  languageCode : String
  qualityScore : ℚ
  status : Status
  deriving DecidableEq, Repr

/-- The argument record of `TranslationCacheService.cacheTranslation`. -/
structure CachePutRec where
  sourceText : String
  targetLanguage : String
  translatedText : String
  qualityScore : ℚ
  deriving DecidableEq, Repr

/-- The effectful collaborators of `translateStrings`, as oracles:
`getCached`/`save`/`cachePut` may throw (`Except.error` carries the
message); `backend` is `translateBatchWithOpenAI`, which never throws. -/
structure OrchEnv where
  getCached : String → String → Except String (Option CacheRow)
  backend : List String → List BatchItem
  save : SaveRec → Except String Unit
  cachePut : CachePutRec → Except String Unit

/-- The cache-check loop of one batch (translationService.ts lines 77-104):
for each entry, a cache hit produces a `completed` result (kept in the local
`cachedResults` array until the end of the `try` block) and a database save;
a miss adds the entry to `uncachedBatch`.  Any thrown error aborts the batch;
saves attempted before the throw are recorded in the log. -/
def cachePhase (env : OrchEnv) (aid lang : String) :
    List (String × String) →
      Except String (List (String × String) × List TranslationResult) × List SaveRec
  | [] => (Except.ok ([], []), [])
  | (k, orig) :: rest =>
    match env.getCached orig lang with
    | Except.error e => (Except.error e, [])
    | Except.ok (some cached) =>
      let q := jsOrRat cached.quality_score (9 / 10)
      let s : SaveRec :=
        { analysisId := aid, translationKey := k, originalText := orig,
          translatedText := cached.translated_text, languageCode := lang,
          qualityScore := q, status := Status.completed }
      match env.save s with
      | Except.error e => (Except.error e, [s])
      | Except.ok _ =>
        let res := cachePhase env aid lang rest
        (res.1.map (fun uc =>
          (uc.1,
           ({ originalText := orig, translatedText := cached.translated_text,
              languageCode := lang, qualityScore := q,
              status := Status.completed } : TranslationResult) :: uc.2)),
         s :: res.2)
    | Except.ok none =>
      let res := cachePhase env aid lang rest
      (res.1.map (fun uc => ((k, orig) :: uc.1, uc.2)), res.2)

/-- The uncached-results loop of one batch (translationService.ts lines
119-178): entry `i` is matched with `batchResults[i]`.  A `completed` item is
cached and saved, then pushed onto the outer `results` array; anything else
pushes a `failed` fallback first and then saves it.  Any thrown error aborts
the batch, keeping the results already pushed and the saves already
attempted.  Returns (error?, pushed results, attempted saves). -/
def uncachedPhase (env : OrchEnv) (aid lang : String)
    (batchResults : List BatchItem) :
    Nat → List (String × String) →
      Option String × List TranslationResult × List SaveRec
  | _, [] => (none, [], [])
  | i, (k, orig) :: rest =>
    match batchResults.get? i with
    | some tr =>
      if tr.status = Status.completed then
        match env.cachePut
            { sourceText := orig, targetLanguage := lang,
              translatedText := tr.translatedText,
              qualityScore := tr.qualityScore } with
        | Except.error e => (some e, [], [])
        | Except.ok _ =>
          let s : SaveRec :=
            { analysisId := aid, translationKey := k, originalText := orig,
              translatedText := tr.translatedText, languageCode := lang,
              qualityScore := tr.qualityScore, status := tr.status }
          match env.save s with
          | Except.error e => (some e, [], [s])
          | Except.ok _ =>
            let res := uncachedPhase env aid lang batchResults (i + 1) rest
            (res.1,
             ({ originalText := orig, translatedText := tr.translatedText,
                languageCode := lang, qualityScore := tr.qualityScore,
                status := tr.status, error := tr.error } : TranslationResult)
               :: res.2.1,
             s :: res.2.2)
      else
        let fr : TranslationResult :=
          { originalText := orig, translatedText := orig, languageCode := lang,
            qualityScore := 0, status := Status.failed,
            error := some (jsOrStr tr.error "Translation failed") }
        let s : SaveRec :=
          { analysisId := aid, translationKey := k, originalText := orig,
            translatedText := orig, languageCode := lang,
            qualityScore := 0, status := Status.failed }
        match env.save s with
        | Except.error e => (some e, [fr], [s])
        | Except.ok _ =>
          let res := uncachedPhase env aid lang batchResults (i + 1) rest
          (res.1, fr :: res.2.1, s :: res.2.2)
    | none =>
      let fr : TranslationResult :=
        { originalText := orig, translatedText := orig, languageCode := lang,
          qualityScore := 0, status := Status.failed,
          error := some "Translation failed" }
      let s : SaveRec :=
        { analysisId := aid, translationKey := k, originalText := orig,
          translatedText := orig, languageCode := lang,
          qualityScore := 0, status := Status.failed }
      match env.save s with
      | Except.error e => (some e, [fr], [s])
      | Except.ok _ =>
        let res := uncachedPhase env aid lang batchResults (i + 1) rest
        (res.1, fr :: res.2.1, s :: res.2.2)

/-- The `try` block for one batch of `translateStrings` (translationService.ts
lines 71-189): cache check, backend call for the uncached entries (only made
when there are any), result processing, then the cached results are appended
to the output.  Returns (error?, results pushed so far, attempted saves). -/
def processBatch (env : OrchEnv) (aid lang : String)
    (batchEntries : List (String × String)) :
    Option String × List TranslationResult × List SaveRec :=
  match cachePhase env aid lang batchEntries with
  | (Except.error e, log) => (some e, [], log)
  | (Except.ok (uncached, cachedResults), log1) =>
    let batchResults := if uncached.isEmpty then [] else
      env.backend (uncached.map (fun kv => kv.2))
    match uncachedPhase env aid lang batchResults 0 uncached with
    | (some e, rs, log2) => (some e, rs, log1 ++ log2)
    | (none, rs, log2) => (none, rs ++ cachedResults, log1 ++ log2)

/-- One batch of `translateStrings` including its `catch` handler
(translationService.ts lines 191-225): an uncaught error inside the batch
marks every entry of the batch `failed` with the original text as fallback
and quality 0, and attempts to persist each fallback (persistence errors are
swallowed by the inner `try`), then the loop continues. -/
def batchStep (env : OrchEnv) (aid lang : String)
    (batch : List (String × String)) :
    List TranslationResult × List SaveRec :=
  match processBatch env aid lang batch with
  | (none, rs, log) => (rs, log)
  | (some e, rs, log) =>
    (rs ++ batch.map (fun kv =>
        ({ originalText := kv.2, translatedText := kv.2, languageCode := lang,
           qualityScore := 0, status := Status.failed,
           error := some e } : TranslationResult)),
     log ++ batch.map (fun kv =>
        ({ analysisId := aid, translationKey := kv.1, originalText := kv.2,
           translatedText := kv.2, languageCode := lang, qualityScore := 0,
           status := Status.failed } : SaveRec)))

/-- `AITranslationService.translateStrings` (translationService.ts lines
44-230): the entries are processed in batches of `BATCH_SIZE = 50`; the
function is total — every batch contributes its results and its attempted
saves to the output, and no exception escapes the per-batch `catch`. -/
def translateStrings (env : OrchEnv) (aid : String)
    (strings : List (String × String)) (lang : String) :
    List TranslationResult × List SaveRec :=
  (chunkList 50 strings).foldl
    (fun acc batch =>
      (acc.1 ++ (batchStep env aid lang batch).1,
       acc.2 ++ (batchStep env aid lang batch).2))
    ([], [])

/-- Unrolling the per-batch fold of `translateStrings`. -/
theorem foldl_append_pair {α β γ : Type} (f : α → List β) (g : α → List γ)
    (bs : List α) :
    ∀ (r0 : List β) (l0 : List γ),
      bs.foldl (fun acc b => (acc.1 ++ f b, acc.2 ++ g b)) (r0, l0)
        = (r0 ++ (bs.map f).flatten, l0 ++ (bs.map g).flatten) := by
  induction bs with
  | nil => intro r0 l0; simp
  | cons b bs ih =>
    intro r0 l0
    simp only [List.foldl_cons, ih, List.map_cons, List.flatten_cons,
      List.append_assoc]

/-- C6 (batch failure isolation): for every environment and input, and every
batch index `i`: if batch `i`'s processing throws (`processBatch` yields an
error `e`), then the output of `translateStrings` contains, for **every**
entry of that batch, a `failed` result whose `translatedText` is the original
source text with quality score 0, and the attempted-save log contains a
`failed` fallback save for that entry; and if batch `i`'s processing
succeeds, every result it produced is in the output.  `translateStrings` is
total by construction, so the run never aborts with an exception. -/
theorem translateStrings_batch_isolation (env : OrchEnv) (aid : String)
    (strings : List (String × String)) (lang : String)
    (i : Nat) (hi : i < (chunkList 50 strings).length) :
    (∀ e rs log,
      processBatch env aid lang ((chunkList 50 strings).get ⟨i, hi⟩)
          = (some e, rs, log) →
      ∀ kv ∈ (chunkList 50 strings).get ⟨i, hi⟩,
        ({ originalText := kv.2, translatedText := kv.2, languageCode := lang,
           qualityScore := 0, status := Status.failed, error := some e }
            : TranslationResult) ∈ (translateStrings env aid strings lang).1 ∧
        ({ analysisId := aid, translationKey := kv.1, originalText := kv.2,
           translatedText := kv.2, languageCode := lang, qualityScore := 0,
           status := Status.failed } : SaveRec)
            ∈ (translateStrings env aid strings lang).2) ∧
    (∀ rs log,
      processBatch env aid lang ((chunkList 50 strings).get ⟨i, hi⟩)
          = (none, rs, log) →
      ∀ r ∈ rs, r ∈ (translateStrings env aid strings lang).1) := by
  have hchar : translateStrings env aid strings lang
      = (((chunkList 50 strings).map
            (fun b => (batchStep env aid lang b).1)).flatten,
         ((chunkList 50 strings).map
            (fun b => (batchStep env aid lang b).2)).flatten) := by
    unfold translateStrings
    rw [foldl_append_pair (fun b => (batchStep env aid lang b).1)
      (fun b => (batchStep env aid lang b).2) (chunkList 50 strings) [] []]
    simp
  have hbmem : (chunkList 50 strings).get ⟨i, hi⟩ ∈ chunkList 50 strings :=
    List.get_mem _ _ hi
  constructor
  · intro e rs log heq kv hkv
    have hstep : (batchStep env aid lang ((chunkList 50 strings).get ⟨i, hi⟩))
        = (rs ++ ((chunkList 50 strings).get ⟨i, hi⟩).map (fun kv =>
            ({ originalText := kv.2, translatedText := kv.2,
               languageCode := lang, qualityScore := 0,
               status := Status.failed, error := some e } : TranslationResult)),
           log ++ ((chunkList 50 strings).get ⟨i, hi⟩).map (fun kv =>
            ({ analysisId := aid, translationKey := kv.1, originalText := kv.2,
               translatedText := kv.2, languageCode := lang, qualityScore := 0,
               status := Status.failed } : SaveRec))) := by
      unfold batchStep
      rw [heq]
    constructor
    · rw [hchar]
      refine List.mem_flatten.2
        ⟨(batchStep env aid lang ((chunkList 50 strings).get ⟨i, hi⟩)).1,
          List.mem_map_of_mem _ hbmem, ?_⟩
      rw [hstep]
      exact List.mem_append_right _ (List.mem_map_of_mem _ hkv)
    · rw [hchar]
      refine List.mem_flatten.2
        ⟨(batchStep env aid lang ((chunkList 50 strings).get ⟨i, hi⟩)).2,
          List.mem_map_of_mem _ hbmem, ?_⟩
      rw [hstep]
      exact List.mem_append_right _ (List.mem_map_of_mem _ hkv)
  · intro rs log heq r hr
    have hstep : (batchStep env aid lang ((chunkList 50 strings).get ⟨i, hi⟩))
        = (rs, log) := by
      unfold batchStep
      rw [heq]
    rw [hchar]
    refine List.mem_flatten.2
      ⟨(batchStep env aid lang ((chunkList 50 strings).get ⟨i, hi⟩)).1,
        List.mem_map_of_mem _ hbmem, ?_⟩
    rw [hstep]
    exact hr

end AITranslationService

namespace AITranslationService

/-- A concrete environment for exercising `translateStrings`: the cache
lookup throws for source text `"d"` (the only entry of the second batch) and
misses otherwise; the backend translates everything to `"X"`; persistence
succeeds. -/
def demoOrchEnv : OrchEnv where
  getCached := fun orig _ =>
    if orig = "d" then Except.error "boom" else Except.ok none
  backend := fun texts => texts.map (fun _ =>
    { translatedText := "X", qualityScore := 1, status := Status.completed })
  save := fun _ => Except.ok ()
  cachePut := fun _ => Except.ok ()

/-- 51 entries: batch 0 holds 50 copies of `("a", "b")`, batch 1 holds
`("c", "d")`, whose processing throws in `demoOrchEnv`. -/
def demoStrings : List (String × String) :=
  List.replicate 50 ("a", "b") ++ [("c", "d")]

end AITranslationService

namespace AITranslationService

set_option maxRecDepth 4000 in
/-- Witness for C6: in `demoOrchEnv`, batch 1's processing throws `"boom"`;
its entry `("c", "d")` nevertheless appears in the output as a `failed`
result with the source text as fallback, and its fallback save was
attempted. -/
theorem translateStrings_batch_isolation_witness :
    ({ originalText := "d", translatedText := "d", languageCode := "es",
       qualityScore := 0, status := Status.failed, error := some "boom" }
        : TranslationResult)
      ∈ (translateStrings demoOrchEnv "aid" demoStrings "es").1 ∧
    ({ analysisId := "aid", translationKey := "c", originalText := "d",
       translatedText := "d", languageCode := "es", qualityScore := 0,
       status := Status.failed } : SaveRec)
      ∈ (translateStrings demoOrchEnv "aid" demoStrings "es").2 :=
  (translateStrings_batch_isolation demoOrchEnv "aid" demoStrings "es" 1
      (by decide)).1 "boom" [] [] (by decide) ("c", "d") (by decide)

end AITranslationService

namespace JsModel

theorem alookup_objUpsert_self (l : List (String × α)) (k : String) (v : α) :
    alookup (objUpsert l k v) k = some v := by
  induction l with
  | nil => simp [objUpsert, alookup, List.find?]
  | cons e rest ih =>
    by_cases h : e.1 = k
    · simp [objUpsert, h, alookup, List.find?]
    · simp only [objUpsert, h, if_false]
      simp only [alookup, List.find?] at ih ⊢
      simp [h, ih]

theorem alookup_objUpsert_ne (l : List (String × α)) (k k' : String) (v : α)
    (h : k' ≠ k) : alookup (objUpsert l k v) k' = alookup l k' := by
  induction l with
  | nil => simp [objUpsert, alookup, List.find?, Ne.symm h]
  | cons e rest ih =>
    by_cases he : e.1 = k
    · subst he
      simp only [objUpsert, if_pos rfl]
      simp [alookup, List.find?, Ne.symm h, h]
    · simp only [objUpsert, he, if_false]
      by_cases he' : e.1 = k'
      · simp [alookup, List.find?, he']
      · simp only [alookup, List.find?] at ih ⊢
        simp [he', ih]

end JsModel

namespace AITranslationService

open JsModel

/-- A target language `{ code, name }`. -/
structure Lang where
  code : String
  name : String
  deriving DecidableEq, Repr

/-- A row of the `translations` table as read by
`TranslationService.getTranslations`. -/
structure TransRow where
  translation_key : String
  original_text : String
  translated_text : String
  status : Status
  deriving DecidableEq, Repr

/-- A row of the `extracted_strings` table (`translation_key` may be null or
empty — both falsy; modelled as the empty string). -/
structure ExtRow where
  translation_key : String
  string_value : String
  deriving DecidableEq, Repr

/-- The reads performed by `generateTranslationFiles`: the stored
translations per language, and the extracted strings (with the success flag
of their fetch) used as the English fallback. -/
structure AsmEnv where
  getTranslations : String → String → List TransRow
  extractedOk : Bool
  extracted : List ExtRow

/-- One generated file `{ path, content, language }`; `obj` is the object
serialised into `content` (the empty object serialises to `"{}"`). -/
structure GenFile where
  path : String
  obj : List (String × String)
  language : String
  deriving DecidableEq, Repr

/-- The translation object built for one language (translationService.ts
lines 320-350): when stored translations exist, every row — regardless of
its status — whose `original_text` is not code-like is written into the
object; with no stored rows, only English falls back to the extracted
strings, and other languages keep the empty object. -/
def buildLangObj (env : AsmEnv) (aid : String) (code : String) :
    List (String × String) :=
  let translations := env.getTranslations aid code
  if translations.length ≠ 0 then
    translations.foldl
      (fun acc t =>
        if isCodeString t.original_text then acc
        else objUpsert acc t.translation_key t.translated_text)
      []
  else if code = "en" && env.extractedOk then
    env.extracted.foldl
      (fun acc s =>
        if s.translation_key ≠ "" && !(isCodeString s.string_value) then
          objUpsert acc s.translation_key s.string_value
        else acc)
      []
  else []

/-- `AITranslationService.generateTranslationFiles`
(translationService.ts lines 307-363): one file per target language, each
built independently from that language's stored rows. -/
def generateTranslationFiles (env : AsmEnv) (aid : String)
    (targetLanguages : List Lang) : List GenFile :=
  targetLanguages.foldl
    (fun files language =>
      files ++ [{ path := "src/i18n/locales/" ++ language.code ++ ".json",
                  obj := buildLangObj env aid language.code,
                  language := language.code }])
    []

end AITranslationService

namespace AITranslationService

open JsModel

theorem foldl_append_singleton {α β : Type} (f : α → β) (xs : List α) :
    ∀ acc : List β, xs.foldl (fun fs x => fs ++ [f x]) acc = acc ++ xs.map f := by
  induction xs with
  | nil => intro acc; simp
  | cons x xs ih =>
    intro acc
    simp [ih]

theorem generateTranslationFiles_eq_map (env : AsmEnv) (aid : String)
    (langs : List Lang) :
    generateTranslationFiles env aid langs = langs.map (fun language =>
      { path := "src/i18n/locales/" ++ language.code ++ ".json",
        obj := buildLangObj env aid language.code,
        language := language.code }) := by
  unfold generateTranslationFiles
  rw [foldl_append_singleton]
  rfl

theorem zip_map_self {α β : Type} (f : α → β) (xs : List α) :
    xs.zip (xs.map f) = xs.map (fun x => (x, f x)) := by
  induction xs with
  | nil => rfl
  | cons x xs ih => simp [ih]

/-- Every row surviving the classifier filter ends up with its key bound in
the folded object (regardless of the row's status). -/
theorem buildFold_presence (rows : List TransRow) :
    ∀ (acc : List (String × String)) (k : String),
      (alookup acc k ≠ none ∨
        ∃ r ∈ rows, isCodeString r.original_text = false ∧ r.translation_key = k) →
      alookup
        (rows.foldl
          (fun acc t =>
            if isCodeString t.original_text then acc
            else objUpsert acc t.translation_key t.translated_text)
          acc) k ≠ none := by
  induction rows with
  | nil =>
    intro acc k h
    rcases h with h | ⟨r, hr, _⟩
    · exact h
    · simp at hr
  | cons r rest ih =>
    intro acc k h
    simp only [List.foldl_cons]
    by_cases hcode : isCodeString r.original_text
    · rw [if_pos hcode]
      apply ih
      rcases h with h | ⟨r', hr', hc', hk'⟩
      · exact Or.inl h
      · rcases List.mem_cons.1 hr' with rfl | hr'
        · rw [hcode] at hc'
          exact absurd hc' (by simp)
        · exact Or.inr ⟨r', hr', hc', hk'⟩
    · rw [if_neg hcode]
      apply ih
      rcases h with h | ⟨r', hr', hc', hk'⟩
      · by_cases hk : k = r.translation_key
        · subst hk
          rw [alookup_objUpsert_self]
          exact Or.inl (by simp)
        · rw [alookup_objUpsert_ne _ _ _ _ hk]
          exact Or.inl h
      · rcases List.mem_cons.1 hr' with rfl | hr'
        · subst hk'
          rw [alookup_objUpsert_self]
          exact Or.inl (by simp)
        · by_cases hk : k = r.translation_key
          · subst hk
            rw [alookup_objUpsert_self]
            exact Or.inl (by simp)
          · rw [alookup_objUpsert_ne _ _ _ _ hk]
            exact Or.inr ⟨r', hr', hc', hk'⟩

/-- C9 (amended): `generateTranslationFiles` emits one file per target
language, built from that language's rows alone; every stored unit whose
`original_text` is not classified as code is written into the file's object
**irrespective of its status** (`failed` units included, with their stored
`translated_text`); a language with zero stored rows (other than `'en'`,
which falls back to the extracted strings) gets the empty object — the file
content `"{}"` — rather than an error, and other languages are unaffected. -/
theorem generateTranslationFiles_spec (env : AsmEnv) (aid : String)
    (langs : List Lang) :
    (generateTranslationFiles env aid langs).length = langs.length ∧
    ∀ p ∈ langs.zip (generateTranslationFiles env aid langs),
      p.2.language = p.1.code ∧
      p.2.path = "src/i18n/locales/" ++ p.1.code ++ ".json" ∧
      (∀ row ∈ env.getTranslations aid p.1.code,
        isCodeString row.original_text = false →
          alookup p.2.obj row.translation_key ≠ none) ∧
      (env.getTranslations aid p.1.code = [] → p.1.code ≠ "en" → p.2.obj = []) := by
  rw [generateTranslationFiles_eq_map]
  refine ⟨List.length_map _ _, ?_⟩
  rw [zip_map_self]
  intro p hp
  rcases List.mem_map.1 hp with ⟨lang, _, rfl⟩
  refine ⟨rfl, rfl, ?_, ?_⟩
  · intro row hrow hcode
    show alookup (buildLangObj env aid lang.code) row.translation_key ≠ none
    unfold buildLangObj
    have hne : (env.getTranslations aid lang.code).length ≠ 0 := by
      intro h0
      rw [List.length_eq_zero.1 h0] at hrow
      simp at hrow
    rw [if_pos hne]
    exact buildFold_presence _ [] _ (Or.inr ⟨row, hrow, hcode, rfl⟩)
  · intro hempty hen
    show buildLangObj env aid lang.code = []
    unfold buildLangObj
    rw [hempty]
    simp [hen]

/-- The assembler environment of the counterexample: for language `es` the
store holds exactly one unit, and it is `failed` (its translated text is the
original fallback); there are no other rows. -/
def demoAsmEnv : AsmEnv where
  getTranslations := fun _ code =>
    if code = "es" then [⟨"k", "Hello", "Hello", Status.failed⟩] else []
  extractedOk := true
  extracted := []

/-- C9 counterexample: language `es` has zero `completed` units (its only
unit is `failed`), yet the generated file is not the empty object `"{}"` —
the failed unit's pair is emitted.  This refutes both "only completed units
are emitted" and "zero completed units yields an empty JSON object file". -/
theorem generateTranslationFiles_claim_counterexample :
    demoAsmEnv.getTranslations "aid" "es" = [⟨"k", "Hello", "Hello", Status.failed⟩] ∧
    generateTranslationFiles demoAsmEnv "aid" [⟨"es", "Spanish"⟩]
      = [{ path := "src/i18n/locales/es.json", obj := [("k", "Hello")],
           language := "es" }] := by
  exact ⟨rfl, by decide⟩

/-- Witness for C9 (amended): with `demoAsmEnv`, the failed unit's key is
bound in the emitted object for `es`. -/
theorem generateTranslationFiles_spec_witness :
    alookup
      ((⟨"es", "Spanish"⟩ : Lang),
        ({ path := "src/i18n/locales/es.json", obj := [("k", "Hello")],
           language := "es" } : GenFile)).2.obj "k" ≠ none :=
  ((generateTranslationFiles_spec demoAsmEnv "aid" [⟨"es", "Spanish"⟩]).2
      (⟨"es", "Spanish"⟩,
        { path := "src/i18n/locales/es.json", obj := [("k", "Hello")],
          language := "es" })
      (by decide)).2.2.1 ⟨"k", "Hello", "Hello", Status.failed⟩ (by decide) (by decide)

end AITranslationService

namespace TranslationFixService

open JsModel

/-- A fetched `failed` translation row (`{ id, original_text,
translated_text }` as destructured by `fixFailedTranslationStatuses`). -/
structure FixRow where
  id : String
  original_text : String
  translated_text : String
  deriving DecidableEq, Repr

/-- A database update attempted by the reconciler (the row id and the new
status / quality score it writes). -/
structure UpdateRec where
  id : String
  status : AITranslationService.Status
  quality_score : ℚ
  deriving DecidableEq, Repr

/-- The summary `{ fixed, actualFailures, total }` the reconciler returns. -/
structure FixSummary where
  fixed : Nat
  actualFailures : Nat
  total : Nat
  deriving DecidableEq, Repr

/-- The per-row loop of `fixFailedTranslationStatuses`
(translationFixService.ts lines 38-86): a code string kept unchanged is
updated to `completed` with quality 1.0; any other unchanged text is updated
to `completed` with quality 0.8; everything else is counted as an actual
failure.  `updateOk` tells whether the database update for a row id succeeds
(`fixedCount` is incremented only then); the returned triple is
(fixedCount, actualFailuresCount, attempted updates). -/
def fixLoop (updateOk : String → Bool) : List FixRow → Nat × Nat × List UpdateRec
  | [] => (0, 0, [])
  | r :: rest =>
    let res := fixLoop updateOk rest
    if AITranslationService.isCodeString r.original_text
        && (r.translated_text == r.original_text) then
      (if updateOk r.id then res.1 + 1 else res.1, res.2.1,
       (⟨r.id, AITranslationService.Status.completed, 1⟩ : UpdateRec) :: res.2.2)
    else if r.translated_text == r.original_text then
      (if updateOk r.id then res.1 + 1 else res.1, res.2.1,
       (⟨r.id, AITranslationService.Status.completed, 4/5⟩ : UpdateRec) :: res.2.2)
    else
      (res.1, res.2.1 + 1, res.2.2)

/-- `TranslationFixService.fixFailedTranslationStatuses`
(translationFixService.ts lines 9-96), applied to the fetched `failed` rows:
returns the summary and the list of attempted updates. -/
def fixFailedTranslationStatuses (updateOk : String → Bool)
    (failedRows : List FixRow) : FixSummary × List UpdateRec :=
  let res := fixLoop updateOk failedRows
  ({ fixed := res.1, actualFailures := res.2.1, total := failedRows.length },
   res.2.2)

theorem fixLoop_btn (updateOk : String → Bool) (rows : List FixRow) :
    ∀ r ∈ rows, r.original_text = "btn-primary" → r.translated_text = "btn-primary" →
      (⟨r.id, AITranslationService.Status.completed, 4/5⟩ : UpdateRec)
        ∈ (fixLoop updateOk rows).2.2 := by
  induction rows with
  | nil => simp
  | cons r' rest ih =>
    intro r hr ho ht
    rcases List.mem_cons.1 hr with rfl | hr
    · show _ ∈ (fixLoop updateOk (r :: rest)).2.2
      rw [fixLoop]
      rw [ho, ht]
      have hc : AITranslationService.isCodeString "btn-primary" = false := by decide
      rw [hc]
      simp
    · show _ ∈ (fixLoop updateOk (r' :: rest)).2.2
      rw [fixLoop]
      have hmem := ih r hr ho ht
      by_cases h1 : (AITranslationService.isCodeString r'.original_text
          && (r'.translated_text == r'.original_text)) = true
      · rw [h1]
        exact List.mem_cons_of_mem _ hmem
      · rw [Bool.not_eq_true] at h1
        rw [h1]
        by_cases h2 : (r'.translated_text == r'.original_text) = true
        · simp only [h2, if_true]
          exact List.mem_cons_of_mem _ hmem
        · rw [Bool.not_eq_true] at h2
          simp only [h2, if_false]
          exact hmem

theorem fixLoop_failures (updateOk : String → Bool) (rows : List FixRow) :
    (fixLoop updateOk rows).2.1
      = (rows.filter (fun r => !(r.translated_text == r.original_text))).length := by
  induction rows with
  | nil => rfl
  | cons r rest ih =>
    rw [fixLoop, List.filter_cons]
    by_cases h2 : (r.translated_text == r.original_text) = true
    · by_cases h1 : (AITranslationService.isCodeString r.original_text
          && (r.translated_text == r.original_text)) = true
      · rw [h1]
        simp [h2, ih]
      · rw [Bool.not_eq_true] at h1
        rw [h1]
        simp [h2, ih]
    · rw [Bool.not_eq_true] at h2
      have h1 : (AITranslationService.isCodeString r.original_text
          && (r.translated_text == r.original_text)) = false := by
        rw [h2, Bool.and_false]
      rw [h1, h2]
      simp [h2, ih]

theorem fixLoop_updates_unchanged_only (updateOk : String → Bool)
    (rows : List FixRow) :
    ∀ u ∈ (fixLoop updateOk rows).2.2,
      ∃ r ∈ rows, u.id = r.id ∧ r.translated_text = r.original_text := by
  induction rows with
  | nil => simp [fixLoop]
  | cons r rest ih =>
    intro u hu
    rw [fixLoop] at hu
    by_cases h1 : (AITranslationService.isCodeString r.original_text
        && (r.translated_text == r.original_text)) = true
    · rw [h1] at hu
      rcases List.mem_cons.1 hu with rfl | hu
      · exact ⟨r, List.mem_cons_self _ _, rfl,
          by simpa using (Bool.and_elim_right h1)⟩
      · obtain ⟨r', hr', h⟩ := ih u hu
        exact ⟨r', List.mem_cons_of_mem _ hr', h⟩
    · rw [Bool.not_eq_true] at h1
      rw [h1] at hu
      by_cases h2 : (r.translated_text == r.original_text) = true
      · simp only [h2, if_true] at hu
        rcases List.mem_cons.1 hu with rfl | hu
        · exact ⟨r, List.mem_cons_self _ _, rfl, by simpa using h2⟩
        · obtain ⟨r', hr', h⟩ := ih u hu
          exact ⟨r', List.mem_cons_of_mem _ hr', h⟩
      · rw [Bool.not_eq_true] at h2
        simp only [h2, if_false] at hu
        obtain ⟨r', hr', h⟩ := ih u hu
        exact ⟨r', List.mem_cons_of_mem _ hr', h⟩

/-- C8 (amended): after the reconciler runs, a previously `failed` unit whose
`sourceText` and `translatedText` are both `"btn-primary"` is updated to
`completed` with quality score **0.8** (not 1.0: the classifier the
reconciler consults does not classify `"btn-primary"` as code, so the
unchanged-text branch applies); every attempted update targets a row whose
translated text equals its source text, so a `failed` unit whose
`translatedText` differs from its `sourceText` is never updated — it remains
`failed` — and `actualFailures` counts exactly those rows. -/
theorem fixFailedTranslationStatuses_spec (updateOk : String → Bool)
    (rows : List FixRow) :
    (∀ r ∈ rows, r.original_text = "btn-primary" → r.translated_text = "btn-primary" →
      (⟨r.id, AITranslationService.Status.completed, 4/5⟩ : UpdateRec)
        ∈ (fixFailedTranslationStatuses updateOk rows).2) ∧
    ((fixFailedTranslationStatuses updateOk rows).1.actualFailures
      = (rows.filter (fun r => !(r.translated_text == r.original_text))).length) ∧
    (∀ u ∈ (fixFailedTranslationStatuses updateOk rows).2,
      ∃ r ∈ rows, u.id = r.id ∧ r.translated_text = r.original_text) :=
  ⟨fun r hr ho ht => fixLoop_btn updateOk rows r hr ho ht,
   fixLoop_failures updateOk rows,
   fixLoop_updates_unchanged_only updateOk rows⟩

/-- C8 counterexample: on the single failed unit with source and translated
text both `"btn-primary"`, the reconciler's attempted update carries quality
score 0.8, not the claimed 1.0. -/
theorem fixFailed_btnPrimary_counterexample :
    (fixFailedTranslationStatuses (fun _ => true)
        [⟨"id1", "btn-primary", "btn-primary"⟩]).2
      = [⟨"id1", AITranslationService.Status.completed, 4/5⟩] ∧
    ((4 : ℚ) / 5) ≠ 1 := by
  constructor
  · rfl
  · norm_num

/-- Witness for C8 (amended): two failed rows — the `btn-primary` one is
updated to `completed` with 0.8, and the genuinely different one
(`"Hello"` vs `"Hola"`) is counted as an actual failure. -/
theorem fixFailedTranslationStatuses_spec_witness :
    (⟨"id1", AITranslationService.Status.completed, 4/5⟩ : UpdateRec)
      ∈ (fixFailedTranslationStatuses (fun _ => true)
          [⟨"id1", "btn-primary", "btn-primary"⟩, ⟨"id2", "Hello", "Hola"⟩]).2 ∧
    (fixFailedTranslationStatuses (fun _ => true)
        [⟨"id1", "btn-primary", "btn-primary"⟩, ⟨"id2", "Hello", "Hola"⟩]).1.actualFailures
      = 1 :=
  ⟨(fixFailedTranslationStatuses_spec (fun _ => true)
      [⟨"id1", "btn-primary", "btn-primary"⟩, ⟨"id2", "Hello", "Hola"⟩]).1
      ⟨"id1", "btn-primary", "btn-primary"⟩ (by decide) rfl rfl,
   (fixFailedTranslationStatuses_spec (fun _ => true)
      [⟨"id1", "btn-primary", "btn-primary"⟩, ⟨"id2", "Hello", "Hola"⟩]).2.1⟩

end TranslationFixService

namespace TranslationCacheService

open JsModel

/-- A row of the `translation_cache` table. -/
structure CacheTableRow where
  source_text : String
  target_language : String
  translated_text : String
  quality_score : ℚ
  deriving DecidableEq, Repr

/-- Modelled from the spec: the repository's files contain no `CREATE TABLE`
for `translation_cache` (the migrations only adjust its row-level-security
policies), so the table's key layout is taken from spec §3: `CacheEntry` is
"keyed by `(sourceText, targetLanguage)`, unique".  A SQL `INSERT` into a
table with that unique key errors on a duplicate instead of overwriting. -/
def insertRow (table : List CacheTableRow) (row : CacheTableRow) :
    Except String (List CacheTableRow) :=
  if table.any (fun r => r.source_text == row.source_text
      && r.target_language == row.target_language) then
    Except.error "duplicate key value violates unique constraint"
  else
    Except.ok (table ++ [row])

/-- `TranslationCacheService.cacheTranslation` (database service): a plain
`.insert(...)` — not an upsert — followed by `if (error) throw error`, so the
error of a duplicate insert is rethrown to the caller.  `quality_score` is
`data.qualityScore || 0.9`. -/
def cacheTranslation (table : List CacheTableRow)
    (sourceText targetLanguage translatedText : String)
    (qualityScore : Option ℚ) : Except String (List CacheTableRow) :=
  insertRow table
    { source_text := sourceText, target_language := targetLanguage,
      translated_text := translatedText,
      quality_score := jsOrRat qualityScore (9 / 10) }

/-- `TranslationCacheService.getCachedTranslation`: a `.single()` select; the
`PGRST116` error (zero or multiple matching rows) is swallowed and surfaces
as "not found". -/
def getCachedTranslation (table : List CacheTableRow)
    (sourceText targetLanguage : String) : Option CacheTableRow :=
  match table.filter (fun r => r.source_text == sourceText
      && r.target_language == targetLanguage) with
  | [r] => some r
  | _ => none

/-- C7: the first `cacheTranslation` for `("Save", "es")` succeeds, but the
second write with the same key throws the uniqueness violation instead of
overwriting or being a no-op — the cache write is not idempotent. -/
theorem cacheTranslation_duplicate_throws :
    cacheTranslation [] "Save" "es" "Guardar" none
      = Except.ok [{ source_text := "Save", target_language := "es",
                     translated_text := "Guardar", quality_score := 9 / 10 }] ∧
    cacheTranslation
        [{ source_text := "Save", target_language := "es",
           translated_text := "Guardar", quality_score := 9 / 10 }]
        "Save" "es" "Guardar" none
      = Except.error "duplicate key value violates unique constraint" :=
  ⟨rfl, rfl⟩

end TranslationCacheService

namespace ConsolidatedTranslationService

open JsModel

/-- A per-key language map `{ lang: text, ... }` of the consolidated format. -/
abbrev LangMap := List (String × String)

/-- The consolidated translations object `{ key: { lang: text } }`. -/
abbrev TransMap := List (String × LangMap)

/-- `ConsolidatedTranslationService.validateBatchTranslations`
(consolidatedTranslationService.ts lines 264-295): keep every expected key
present in the response (missing target languages are only logged — partial
translations are still included); keys missing from the response are
dropped. -/
def validateBatchTranslations (batchTranslations : TransMap)
    (expectedKeys : List String) : TransMap :=
  expectedKeys.filterMap (fun k => (alookup batchTranslations k).map (fun m => (k, m)))

/-- The merge of one key of a successful batch
(consolidatedTranslationService.ts lines 191-214): if the validated response
has a non-empty language map for the key and at least one requested language
carries a non-empty text different from the source, merge
`{ en: source, ...validated[key] }`; otherwise fall back to the
English-only entry. -/
def mergeValue (languageCodes : List String) (validated : TransMap)
    (kv : String × String) : LangMap :=
  match alookup validated kv.1 with
  | some m =>
    if m.length ≠ 0 then
      if languageCodes.any (fun lang =>
          match alookup m lang with
          | some v => !(v == "") && !(v == kv.2)
          | none => false) then
        objSpread [("en", kv.2)] m
      else [("en", kv.2)]
    else [("en", kv.2)]
  | none => [("en", kv.2)]

/-- The assignments one batch contributes to `allTranslations`: on a batch
failure (the `catch` arm) every key gets the English-only entry; on success
each key gets its merged value. -/
def batchAssigns (oracle : Nat → Except String TransMap)
    (languageCodes : List String) (ib : Nat × Batch) :
    List (String × LangMap) :=
  match oracle ib.1 with
  | Except.error _ => ib.2.json.map (fun kv => (kv.1, [("en", kv.2)]))
  | Except.ok batchTranslations =>
    ib.2.json.map (fun kv =>
      (kv.1,
       mergeValue languageCodes
         (validateBatchTranslations batchTranslations (ib.2.json.map Prod.fst))
         kv))

/-- `ConsolidatedTranslationService.generateWithBatching`
(consolidatedTranslationService.ts lines 116-262), restricted to the value it
computes: the batches are processed in order (the oracle gives each batch
call's outcome), each batch's keys are written into `allTranslations`
(`objUpsert` per key, in entry order); a failed batch writes English-only
entries for all its keys and processing continues with the next batch. -/
def generateWithBatching (oracle : Nat → Except String TransMap)
    (englishJson : List (String × String)) (languageCodes : List String)
    (batchSizeOpt : Option Nat) : TransMap :=
  let batchSize := jsOrNat batchSizeOpt 75
  let batches := generateBatches englishJson batchSize
  batches.enum.foldl
    (fun allTranslations ib =>
      (batchAssigns oracle languageCodes ib).foldl
        (fun acc e => objUpsert acc e.1 e.2) allTranslations)
    []

/-- `ConsolidatedTranslationService.generateConsolidatedTranslationFile`
(consolidatedTranslationService.ts lines 18-83), restricted to the
translations object it serialises: with more strings than the adaptive batch
size it delegates to `generateWithBatching`; otherwise one consolidated call
is made and every input key is written as `{ en: source,
...consolidated[key] || {} }`; if that call throws, the `catch` arm emits the
English-only fallback for every key. -/
def generateConsolidatedTranslationFile
    (oracle : Option Nat → Except String TransMap)
    (englishJson : List (String × String))
    (targetLanguages : List AITranslationService.Lang)
    (batchSizeOpt : Option Nat) : TransMap :=
  let languageCodes := targetLanguages.map (fun l => l.code)
  let stringCount := englishJson.length
  let adaptiveBatchSize := calculateAdaptiveBatchSize englishJson (jsOrNat batchSizeOpt 75)
  if adaptiveBatchSize < stringCount then
    generateWithBatching (fun i => oracle (some i)) englishJson languageCodes
      (some adaptiveBatchSize)
  else
    match oracle none with
    | Except.ok consolidatedTranslations =>
      englishJson.foldl
        (fun acc kv =>
          objUpsert acc kv.1
            (objSpread [("en", kv.2)]
              ((alookup consolidatedTranslations kv.1).getD [])))
        []
    | Except.error _ =>
      englishJson.foldl (fun acc kv => objUpsert acc kv.1 [("en", kv.2)]) []

end ConsolidatedTranslationService

namespace JsModel

theorem objUpsert_map_fst_not_mem (l : List (String × α)) (k : String) (v : α)
    (h : k ∉ l.map Prod.fst) :
    objUpsert l k v = l ++ [(k, v)] := by
  induction l with
  | nil => rfl
  | cons e rest ih =>
    simp only [List.map_cons, List.mem_cons] at h
    push_neg at h
    simp only [objUpsert]
    rw [if_neg (fun he => h.1 he.symm)]
    rw [ih h.2]
    rfl

theorem objSpread_lookup_not_mem (m : List (String × α)) :
    ∀ (base : List (String × α)) (k : String), k ∉ m.map Prod.fst →
      alookup (objSpread base m) k = alookup base k := by
  induction m with
  | nil => intro base k _; rfl
  | cons e rest ih =>
    intro base k hk
    simp only [List.map_cons, List.mem_cons] at hk
    push_neg at hk
    show alookup (objSpread (objUpsert base e.1 e.2) rest) k = _
    rw [ih _ k hk.2, alookup_objUpsert_ne _ _ _ _ hk.1]

/-- Folding distinct-key assignments into an object: the key list is the
concatenation, each assigned key maps to its assigned value, and unassigned
keys keep their base binding. -/
theorem objSpread_keys_lookup (assigns : List (String × α)) :
    ∀ base : List (String × α),
      (base.map Prod.fst ++ assigns.map Prod.fst).Nodup →
      ((objSpread base assigns).map Prod.fst
          = base.map Prod.fst ++ assigns.map Prod.fst) ∧
      (∀ e ∈ assigns, alookup (objSpread base assigns) e.1 = some e.2) ∧
      (∀ k, k ∉ assigns.map Prod.fst →
        alookup (objSpread base assigns) k = alookup base k) := by
  induction assigns with
  | nil =>
    intro base _
    exact ⟨by simp [objSpread], by simp, fun k _ => rfl⟩
  | cons e rest ih =>
    intro base h
    have hkeys : (base.map Prod.fst ++ e.1 :: rest.map Prod.fst).Nodup := by
      simpa using h
    obtain ⟨h1, h2, hdisj⟩ := List.nodup_append.1 hkeys
    have he_base : e.1 ∉ base.map Prod.fst :=
      fun hmem => hdisj hmem (List.mem_cons_self _ _)
    have he_rest : e.1 ∉ rest.map Prod.fst := (List.nodup_cons.1 h2).1
    have hbase' : ((objUpsert base e.1 e.2).map Prod.fst
        ++ rest.map Prod.fst).Nodup := by
      rw [objUpsert_map_fst_not_mem base e.1 e.2 he_base, List.map_append]
      rw [List.append_assoc]
      simpa using hkeys
    obtain ⟨ihkeys, ihlookup, ihpres⟩ := ih (objUpsert base e.1 e.2) hbase'
    refine ⟨?_, ?_, ?_⟩
    · show (objSpread (objUpsert base e.1 e.2) rest).map Prod.fst = _
      rw [ihkeys, objUpsert_map_fst_not_mem base e.1 e.2 he_base, List.map_append]
      simp
    · intro f hf
      rcases List.mem_cons.1 hf with rfl | hf
      · show alookup (objSpread (objUpsert base f.1 f.2) rest) f.1 = some f.2
        rw [ihpres f.1 he_rest, alookup_objUpsert_self]
      · exact ihlookup f hf
    · intro k hk
      simp only [List.map_cons, List.mem_cons] at hk
      push_neg at hk
      show alookup (objSpread (objUpsert base e.1 e.2) rest) k = _
      rw [ihpres k hk.2, alookup_objUpsert_ne _ _ _ _ hk.1]

/-- A successful object lookup exhibits a member pair. -/
theorem alookup_mem (l : List (String × α)) (k : String) (v : α)
    (h : alookup l k = some v) : (k, v) ∈ l := by
  unfold alookup at h
  cases hf : l.find? (fun e => e.1 = k) with
  | none => rw [hf] at h; simp at h
  | some f =>
    rw [hf] at h
    have hv : f.2 = v := by simpa using h
    have hm := List.mem_of_find?_eq_some hf
    have hp := List.find?_some hf
    simp only [decide_eq_true_eq] at hp
    have hkv : (k, v) = f := by
      cases f
      simp_all
    rw [hkv]
    exact hm

theorem jsOrNat_pos (x : Option Nat) (d : Nat) (hd : 0 < d) :
    0 < jsOrNat x d := by
  cases x with
  | none => exact hd
  | some n =>
    by_cases h : n = 0
    · simpa [jsOrNat, h] using hd
    · simpa [jsOrNat, h] using Nat.pos_of_ne_zero h

end JsModel

namespace ConsolidatedTranslationService

open JsModel

theorem foldl_objUpsert_flatten {α : Type} (css : List (List (String × α))) :
    ∀ base : List (String × α),
      css.foldl (fun acc cs => cs.foldl (fun a e => objUpsert a e.1 e.2) acc) base
        = objSpread base css.flatten := by
  induction css with
  | nil => intro base; rfl
  | cons cs css ih =>
    intro base
    simp only [List.foldl_cons, List.flatten_cons]
    rw [ih]
    unfold objSpread
    rw [List.foldl_append]

theorem generateWithBatching_eq_spread (oracle : Nat → Except String TransMap)
    (englishJson : List (String × String)) (languageCodes : List String)
    (batchSizeOpt : Option Nat) :
    generateWithBatching oracle englishJson languageCodes batchSizeOpt
      = objSpread []
          (((generateBatches englishJson (jsOrNat batchSizeOpt 75)).enum.map
              (batchAssigns oracle languageCodes)).flatten) := by
  unfold generateWithBatching
  rw [← foldl_objUpsert_flatten]
  rw [List.foldl_map]

theorem batchAssigns_keys (oracle : Nat → Except String TransMap)
    (languageCodes : List String) (ib : Nat × Batch) :
    (batchAssigns oracle languageCodes ib).map Prod.fst
      = ib.2.json.map Prod.fst := by
  cases heq : oracle ib.1 <;>
    simp [batchAssigns, heq, List.map_map, Function.comp_def]

theorem enum_map_snd_fn {α β : Type} (f : α → β) (l : List α) :
    l.enum.map (fun ib => f ib.2) = l.map f := by
  conv_rhs => rw [← List.enum_map_snd l]
  rw [List.map_map]
  rfl

theorem generateBatches_json_flatten (entries : List (String × String))
    (b : Nat) (hb : 0 < b) :
    ((generateBatches entries b).map Batch.json).flatten
      = entries.filter (fun e => e.1.length > 50)
        ++ entries.filter (fun e => e.1.length ≤ 50) := by
  have hlb : (0 : Nat) < max 15 (b * 3 / 10) :=
    lt_of_lt_of_le (by norm_num) (le_max_left _ _)
  have hjs : (generateBatches entries b).map Batch.json
      = chunkList (max 15 (b * 3 / 10)) (entries.filter (fun e => e.1.length > 50))
        ++ chunkList b (entries.filter (fun e => e.1.length ≤ 50)) := by
    simp [generateBatches, List.map_map, Function.comp_def]
  rw [hjs, List.flatten_append,
    chunkList_flatten _ hlb _, chunkList_flatten _ hb _]

theorem filter_split_perm (entries : List (String × String)) :
    (entries.filter (fun e => e.1.length > 50)
      ++ entries.filter (fun e => e.1.length ≤ 50)).Perm entries := by
  have hNeq : entries.filter (fun e => e.1.length ≤ 50)
      = entries.filter (fun e => !(decide (e.1.length > 50))) := by
    apply List.filter_congr
    intro a _
    by_cases h : 50 < a.1.length
    · simp [h, Nat.not_le.2 h]
    · simp [h, Nat.not_lt.1 h]
  rw [hNeq]
  exact List.filter_append_perm _ entries

end ConsolidatedTranslationService

namespace ConsolidatedTranslationService

open JsModel

/-- Distinct-key assignments folded into an object: the keys are a
permutation of the input keys, and every input entry's assigned language map
survives lookup. -/
theorem spread_invariant (englishJson : List (String × String))
    (assigns : List (String × LangMap))
    (hperm : (assigns.map Prod.fst).Perm (englishJson.map Prod.fst))
    (hnd : (englishJson.map Prod.fst).Nodup)
    (hval : ∀ kv ∈ englishJson, ∃ m,
      (kv.1, m) ∈ assigns ∧ alookup m "en" = some kv.2) :
    ((objSpread [] assigns).map Prod.fst).Perm (englishJson.map Prod.fst) ∧
    ∀ kv ∈ englishJson, ∃ m,
      alookup (objSpread [] assigns) kv.1 = some m ∧ alookup m "en" = some kv.2 := by
  have hndassigns : ((([] : List (String × LangMap)).map Prod.fst)
      ++ assigns.map Prod.fst).Nodup := by
    simpa using hperm.nodup_iff.2 hnd
  obtain ⟨hkeys, hlookup, _⟩ := objSpread_keys_lookup assigns [] hndassigns
  constructor
  · rw [hkeys]
    simpa using hperm
  · intro kv hkv
    obtain ⟨m, hm, henm⟩ := hval kv hkv
    exact ⟨m, hlookup (kv.1, m) hm, henm⟩

/-- A key found in the validated response came from the raw response. -/
theorem validated_sub (bt : TransMap) (keys : List String) (k : String)
    (m : LangMap)
    (h : alookup (validateBatchTranslations bt keys) k = some m) :
    (k, m) ∈ bt := by
  have hmem := alookup_mem _ _ _ h
  unfold validateBatchTranslations at hmem
  rcases List.mem_filterMap.1 hmem with ⟨k', _, heq⟩
  cases hbt : alookup bt k' with
  | none => rw [hbt] at heq; simp at heq
  | some m' =>
    rw [hbt] at heq
    have hk : k' = k ∧ m' = m := by simpa using heq
    obtain ⟨rfl, rfl⟩ := hk
    exact alookup_mem bt k' m' hbt

/-- The merged value of a key always keeps `en` bound to the source text,
provided the response's language maps only use requested target languages
and `en` is not among them. -/
theorem mergeValue_en (languageCodes : List String) (validated : TransMap)
    (kv : String × String)
    (hm : ∀ m, alookup validated kv.1 = some m → ∀ lv ∈ m, lv.1 ∈ languageCodes)
    (hen : "en" ∉ languageCodes) :
    alookup (mergeValue languageCodes validated kv) "en" = some kv.2 := by
  unfold mergeValue
  split
  next m hv =>
    by_cases hlen : m.length ≠ 0
    · rw [if_pos hlen]
      cases hany : languageCodes.any (fun lang =>
          match alookup m lang with
          | some v => !(v == "") && !(v == kv.2)
          | none => false) with
      | false => rfl
      | true =>
        show alookup (objSpread [("en", kv.2)] m) "en" = some kv.2
        rw [objSpread_lookup_not_mem m [("en", kv.2)] "en" ?hnot]
        · rfl
        case hnot =>
          intro hmem
          rcases List.mem_map.1 hmem with ⟨lv, hlv, hlv1⟩
          exact hen (hlv1 ▸ hm m hv lv hlv)
    · rw [if_neg hlen]
      rfl
  next hv => rfl

/-- The `en` invariant for `generateWithBatching`, for an arbitrary batch
oracle whose successful responses only mention requested target languages. -/
theorem generateWithBatching_invariant (oracle : Nat → Except String TransMap)
    (englishJson : List (String × String)) (languageCodes : List String)
    (batchSizeOpt : Option Nat)
    (hnd : (englishJson.map Prod.fst).Nodup)
    (hen : "en" ∉ languageCodes)
    (horacle : ∀ i m, oracle i = Except.ok m →
      ∀ e ∈ m, ∀ lv ∈ e.2, lv.1 ∈ languageCodes) :
    ((generateWithBatching oracle englishJson languageCodes batchSizeOpt).map
        Prod.fst).Perm (englishJson.map Prod.fst) ∧
    ∀ kv ∈ englishJson, ∃ m,
      alookup (generateWithBatching oracle englishJson languageCodes batchSizeOpt)
          kv.1 = some m ∧
      alookup m "en" = some kv.2 := by
  have hb : 0 < jsOrNat batchSizeOpt 75 := jsOrNat_pos _ _ (by norm_num)
  have hassignkeys :
      ((((generateBatches englishJson (jsOrNat batchSizeOpt 75)).enum.map
          (batchAssigns oracle languageCodes)).flatten).map Prod.fst)
        = ((((generateBatches englishJson (jsOrNat batchSizeOpt 75)).map
            Batch.json).flatten).map Prod.fst) := by
    rw [List.map_flatten, List.map_flatten, List.map_map, List.map_map]
    congr 1
    have step1 : (generateBatches englishJson (jsOrNat batchSizeOpt 75)).enum.map
        (List.map Prod.fst ∘ batchAssigns oracle languageCodes)
          = (generateBatches englishJson (jsOrNat batchSizeOpt 75)).enum.map
            (fun ib => ib.2.json.map Prod.fst) :=
      List.map_congr_left (fun ib _ => batchAssigns_keys oracle languageCodes ib)
    rw [step1]
    have step2 := enum_map_snd_fn (fun b => b.json.map Prod.fst)
      (generateBatches englishJson (jsOrNat batchSizeOpt 75))
    rw [step2]
    rfl
  have hperm1 : (((((generateBatches englishJson (jsOrNat batchSizeOpt 75)).enum.map
      (batchAssigns oracle languageCodes)).flatten).map Prod.fst)).Perm
        (englishJson.map Prod.fst) := by
    rw [hassignkeys, generateBatches_json_flatten englishJson _ hb]
    exact (filter_split_perm englishJson).map Prod.fst
  have hval1 : ∀ kv ∈ englishJson, ∃ m,
      (kv.1, m) ∈ (((generateBatches englishJson (jsOrNat batchSizeOpt 75)).enum.map
        (batchAssigns oracle languageCodes)).flatten) ∧
      alookup m "en" = some kv.2 := by
    intro kv hkv
    have hkv2 : kv ∈ ((generateBatches englishJson
        (jsOrNat batchSizeOpt 75)).map Batch.json).flatten := by
      rw [generateBatches_json_flatten englishJson _ hb]
      by_cases h : 50 < kv.1.length
      · exact List.mem_append_left _ (List.mem_filter.2 ⟨hkv, by simpa using h⟩)
      · exact List.mem_append_right _
          (List.mem_filter.2 ⟨hkv, by simpa using Nat.not_lt.1 h⟩)
    rcases List.mem_flatten.1 hkv2 with ⟨js, hjs, hkvjs⟩
    rcases List.mem_map.1 hjs with ⟨batch, hbatch, rfl⟩
    have hbatch' : batch ∈ (generateBatches englishJson
        (jsOrNat batchSizeOpt 75)).enum.map Prod.snd := by
      rw [List.enum_map_snd]
      exact hbatch
    rcases List.mem_map.1 hbatch' with ⟨ib, hib, hib2⟩
    rw [← hib2] at hkvjs
    cases horc : oracle ib.1 with
    | error e =>
      refine ⟨[("en", kv.2)], ?_, rfl⟩
      apply List.mem_flatten.2
      refine ⟨batchAssigns oracle languageCodes ib, List.mem_map_of_mem _ hib, ?_⟩
      unfold batchAssigns
      rw [horc]
      exact List.mem_map_of_mem _ hkvjs
    | ok bt =>
      refine ⟨mergeValue languageCodes
        (validateBatchTranslations bt (ib.2.json.map Prod.fst)) kv, ?_, ?_⟩
      · apply List.mem_flatten.2
        refine ⟨batchAssigns oracle languageCodes ib, List.mem_map_of_mem _ hib, ?_⟩
        unfold batchAssigns
        rw [horc]
        exact List.mem_map_of_mem _ hkvjs
      · apply mergeValue_en languageCodes _ kv ?_ hen
        intro m hv lv hlv
        have hbtmem := validated_sub bt _ _ _ hv
        exact horacle ib.1 bt horc (kv.1, m) hbtmem lv hlv
  rw [generateWithBatching_eq_spread]
  exact spread_invariant englishJson _ hperm1 hnd hval1

end ConsolidatedTranslationService

namespace ConsolidatedTranslationService

open JsModel

/-- C10 (implicit consolidated-output invariant): for every input English
mapping (distinct keys), every batch-oracle outcome combination (successes,
failures, responses with missing keys or missing languages — successful
responses mention only requested target languages), and `en` not among the
requested targets, both `generateWithBatching` and
`generateConsolidatedTranslationFile` produce a translations object whose
key set is exactly the input's key set, and every key's language map binds
`en` to that key's English source text. -/
theorem consolidated_en_invariant
    (oracle : Option Nat → Except String TransMap)
    (englishJson : List (String × String))
    (targetLanguages : List AITranslationService.Lang)
    (batchSizeOpt : Option Nat)
    (hnd : (englishJson.map Prod.fst).Nodup)
    (hen : "en" ∉ targetLanguages.map (fun l => l.code))
    (horacle : ∀ i m, oracle i = Except.ok m →
      ∀ e ∈ m, ∀ lv ∈ e.2, lv.1 ∈ targetLanguages.map (fun l => l.code)) :
    (((generateWithBatching (fun i => oracle (some i)) englishJson
          (targetLanguages.map (fun l => l.code)) batchSizeOpt).map Prod.fst).Perm
        (englishJson.map Prod.fst) ∧
      ∀ kv ∈ englishJson, ∃ m,
        alookup (generateWithBatching (fun i => oracle (some i)) englishJson
            (targetLanguages.map (fun l => l.code)) batchSizeOpt) kv.1 = some m ∧
        alookup m "en" = some kv.2) ∧
    (((generateConsolidatedTranslationFile oracle englishJson targetLanguages
          batchSizeOpt).map Prod.fst).Perm (englishJson.map Prod.fst) ∧
      ∀ kv ∈ englishJson, ∃ m,
        alookup (generateConsolidatedTranslationFile oracle englishJson
            targetLanguages batchSizeOpt) kv.1 = some m ∧
        alookup m "en" = some kv.2) := by
  have hpart1 := generateWithBatching_invariant (fun i => oracle (some i))
    englishJson (targetLanguages.map (fun l => l.code)) batchSizeOpt hnd hen
    (fun i m h => horacle (some i) m h)
  refine ⟨hpart1, ?_⟩
  have hdef : generateConsolidatedTranslationFile oracle englishJson
      targetLanguages batchSizeOpt
      = if calculateAdaptiveBatchSize englishJson (jsOrNat batchSizeOpt 75)
            < englishJson.length then
          generateWithBatching (fun i => oracle (some i)) englishJson
            (targetLanguages.map (fun l => l.code))
            (some (calculateAdaptiveBatchSize englishJson (jsOrNat batchSizeOpt 75)))
        else
          match oracle none with
          | Except.ok consolidatedTranslations =>
            englishJson.foldl
              (fun acc kv =>
                objUpsert acc kv.1
                  (objSpread [("en", kv.2)]
                    ((alookup consolidatedTranslations kv.1).getD [])))
              []
          | Except.error _ =>
            englishJson.foldl (fun acc kv => objUpsert acc kv.1 [("en", kv.2)]) [] :=
    rfl
  rw [hdef]
  by_cases hsz : calculateAdaptiveBatchSize englishJson (jsOrNat batchSizeOpt 75)
      < englishJson.length
  · rw [if_pos hsz]
    exact generateWithBatching_invariant (fun i => oracle (some i)) englishJson
      (targetLanguages.map (fun l => l.code))
      (some (calculateAdaptiveBatchSize englishJson (jsOrNat batchSizeOpt 75)))
      hnd hen (fun i m h => horacle (some i) m h)
  · rw [if_neg hsz]
    cases horc : oracle none with
    | ok ct =>
      have hcase : (match Except.ok (ε := String) ct with
          | Except.ok consolidatedTranslations =>
            englishJson.foldl
              (fun acc kv =>
                objUpsert acc kv.1
                  (objSpread [("en", kv.2)]
                    ((alookup consolidatedTranslations kv.1).getD [])))
              []
          | Except.error _ =>
            englishJson.foldl (fun acc kv => objUpsert acc kv.1 [("en", kv.2)]) [])
          = englishJson.foldl
              (fun acc kv =>
                objUpsert acc kv.1
                  (objSpread [("en", kv.2)] ((alookup ct kv.1).getD []))) [] := rfl
      rw [hcase]
      have hfold : englishJson.foldl
          (fun acc kv =>
            objUpsert acc kv.1
              (objSpread [("en", kv.2)] ((alookup ct kv.1).getD []))) []
          = objSpread [] (englishJson.map (fun kv =>
              (kv.1, objSpread [("en", kv.2)] ((alookup ct kv.1).getD [])))) := by
        unfold objSpread
        rw [List.foldl_map]
      rw [hfold]
      apply spread_invariant
      · have : (englishJson.map (fun kv =>
            (kv.1, objSpread [("en", kv.2)] ((alookup ct kv.1).getD [])))).map
              Prod.fst = englishJson.map Prod.fst := by
          simp [List.map_map, Function.comp_def]
        rw [this]
      · exact hnd
      · intro kv hkv
        refine ⟨objSpread [("en", kv.2)] ((alookup ct kv.1).getD []),
          List.mem_map_of_mem _ hkv, ?_⟩
        rw [objSpread_lookup_not_mem _ _ "en" ?hnot]
        · rfl
        case hnot =>
          intro hmem
          cases halk : alookup ct kv.1 with
          | none => rw [halk] at hmem; simp at hmem
          | some m' =>
            rw [halk] at hmem
            simp only [Option.getD_some] at hmem
            rcases List.mem_map.1 hmem with ⟨lv, hlv, hlv1⟩
            exact hen (hlv1 ▸
              horacle none ct horc (kv.1, m') (alookup_mem ct kv.1 m' halk) lv hlv)
    | error e =>
      have hcase : (match Except.error (α := TransMap) e with
          | Except.ok consolidatedTranslations =>
            englishJson.foldl
              (fun acc kv =>
                objUpsert acc kv.1
                  (objSpread [("en", kv.2)]
                    ((alookup consolidatedTranslations kv.1).getD [])))
              []
          | Except.error _ =>
            englishJson.foldl (fun acc kv => objUpsert acc kv.1 [("en", kv.2)]) [])
          = englishJson.foldl
              (fun acc kv => objUpsert acc kv.1 [("en", kv.2)]) [] := rfl
      rw [hcase]
      have hfold : englishJson.foldl
          (fun acc kv => objUpsert acc kv.1 [("en", kv.2)]) []
          = objSpread [] (englishJson.map (fun kv => (kv.1, [("en", kv.2)]))) := by
        unfold objSpread
        rw [List.foldl_map]
      rw [hfold]
      apply spread_invariant
      · have : (englishJson.map (fun kv => (kv.1, [("en", kv.2)]))).map Prod.fst
            = englishJson.map Prod.fst := by
          simp [List.map_map, Function.comp_def]
        rw [this]
      · exact hnd
      · intro kv hkv
        exact ⟨[("en", kv.2)], List.mem_map_of_mem _ hkv, rfl⟩

/-- A concrete consolidated-translation oracle: the single-call path returns
a Spanish translation for the only key; batch calls fail. -/
def demoOracle : Option Nat → Except String TransMap
  | none => Except.ok [("k1", [("es", "Hola")])]
  | some _ => Except.error "batch failed"

/-- Witness for C10: on the one-entry input with target `es`, the
consolidated file binds `en` of key `k1` to the English source text. -/
theorem consolidated_en_invariant_witness :
    ∃ m, alookup (generateConsolidatedTranslationFile demoOracle
        [("k1", "Hello")] [⟨"es", "Spanish"⟩] none) "k1" = some m ∧
      alookup m "en" = some "Hello" :=
  ((consolidated_en_invariant demoOracle [("k1", "Hello")] [⟨"es", "Spanish"⟩]
      none (by decide) (by decide)
      (by
        intro i m h e he lv hlv
        cases i with
        | some j => exact absurd h (by simp [demoOracle])
        | none =>
          have hm : m = [("k1", [("es", "Hola")])] := by
            have h' : Except.ok (ε := String) [("k1", [("es", "Hola")])]
                = Except.ok m := h
            injection h' with h''
            exact h''.symm
          subst hm
          simp only [List.mem_singleton] at he
          subst he
          simp only [List.mem_singleton] at hlv
          subst hlv
          decide)).2).2
    ("k1", "Hello") (by decide)

end ConsolidatedTranslationService
